import Mathlib

/-!
Verification of the AntigravityManager core against its specification.

The TypeScript sources are shallowly embedded in Lean:
* JS numbers are modelled as exact rationals (`ℚ`);
* JS strings are Lean `String`s, manipulated through their character lists;
* JS string helpers (`trim`, `split`, `startsWith`, `includes`) are modelled
  over the ASCII whitespace subset of the JS definitions;
* fallible operations return `Option`.
-/

namespace AGM

/-! ## Shared character-list utilities (models of JS string methods) -/

/-- Whitespace recognised by our model of `String.prototype.trim`
(ASCII subset of the JS whitespace class). -/
def isJsWsChar (c : Char) : Bool :=
  c = ' ' || c = '\t' || c = '\n' || c = '\r' || c = '\x0b' || c = '\x0c'

/-- Model of `s.trim()` on character lists: drop whitespace at both ends. -/
def trimChars (cs : List Char) : List Char :=
  ((cs.dropWhile isJsWsChar).reverse.dropWhile isJsWsChar).reverse

/-- Model of `s.trim()` on strings. -/
def jsTrim (s : String) : String :=
  String.mk (trimChars s.data)

/-- Model of `s.split(sep)` for a one-character separator: JS semantics,
so `split` of the empty string yields `[""]` and separators at the ends
produce empty fragments. -/
def splitOnChar (sep : Char) : List Char → List (List Char)
  | [] => [[]]
  | c :: cs =>
    if c = sep then [] :: splitOnChar sep cs
    else
      match splitOnChar sep cs with
      | l :: ls => (c :: l) :: ls
      | [] => [[c]]

/-- Model of `s.split(sep)` on strings. -/
def jsSplit (sep : Char) (s : String) : List String :=
  (splitOnChar sep s.data).map String.mk

/-- Model of `s.startsWith(p)`. -/
def jsStartsWith (p s : String) : Bool :=
  p.data.isPrefixOf s.data

/-- Model of `s.includes(sub)`. -/
def jsIncludes (sub s : String) : Bool :=
  decide (sub.data <:+: s.data)

/-- Model of JS `Math.round`: round half towards positive infinity. -/
def jsMathRound (q : ℚ) : ℤ :=
  ⌊q + 1 / 2⌋

/-- `Math.round(q * 10) / 10`: rounding to one decimal as done throughout
the quota aggregation code. -/
def round1 (q : ℚ) : ℚ :=
  (jsMathRound (q * 10) : ℚ) / 10

/-! ## `src/utils/provider-grouping.ts` -/

/-- `ProviderInfo` from provider-grouping.ts. -/
structure ProviderInfo where
  name : String
  company : String
  color : String
  deriving DecidableEq, Repr

/-- `PROVIDER_REGISTRY`, as an ordered association list (the declaration
order of the TS record literal: `claude-`, `gemini-`, `others`). -/
def PROVIDER_REGISTRY : List (String × ProviderInfo) :=
  [ ("claude-", ⟨"Claude", "Anthropic", "#D97757"⟩)
  , ("gemini-", ⟨"Gemini", "Google", "#4285F4"⟩)
  , ("others", ⟨"Other", "Various", "#6B7280"⟩) ]

/-- `detectProvider`: iterate the registry keys in declaration order,
first non-`others` key that is a prefix of the model name wins,
otherwise `others`. -/
def detectProvider (modelName : String) : String :=
  match (PROVIDER_REGISTRY.map Prod.fst).find?
      (fun p => p ≠ "others" && p.data.isPrefixOf modelName.data) with
  | some p => p
  | none => "others"

/-- `getProviderInfo`. -/
def getProviderInfo (modelName : String) : ProviderInfo :=
  match PROVIDER_REGISTRY.find? (fun e => e.1 = detectProvider modelName) with
  | some e => e.2
  | none => ⟨"Other", "Various", "#6B7280"⟩

/-- `ModelQuota` (the per-model quota rows used by the grouping code).
Percentages are exact rationals; `resetTime` is kept as its raw string
(date parsing is outside the scope of the embedded claims). -/
structure ModelQuota where
  id : String
  percentage : ℚ
  resetTime : String
  deriving DecidableEq, Repr

/-- Visibility settings: the caller-supplied `Record<string, boolean>`,
modelled as an association list looked up by first match. -/
def visLookup (vis : List (String × Bool)) (id : String) : Option Bool :=
  (vis.find? (fun e => e.1 = id)).map Prod.snd

/-- `visibilitySettings[m.id] !== false`: a model is visible unless its
entry is exactly `false`; an absent key means visible. -/
def isVisible (vis : List (String × Bool)) (id : String) : Bool :=
  match visLookup vis id with
  | some false => false
  | _ => true

/-- `ProviderStats` (the `earliestReset` field, which needs `Date` parsing,
is outside the embedded claims and is not modelled). -/
structure ProviderStats where
  providerKey : String
  models : List ModelQuota
  visibleModels : List ModelQuota
  avgPercentage : ℚ
  deriving DecidableEq, Repr

/-- Sum of the `percentage` fields of a list of models. -/
def sumPct (ms : List ModelQuota) : ℚ :=
  (ms.map ModelQuota.percentage).sum

/-- `calculateProviderStats` from provider-grouping.ts. -/
def calculateProviderStats (providerKey : String) (models : List ModelQuota)
    (vis : List (String × Bool)) : ProviderStats :=
  let visibleModels := models.filter (fun m => isVisible vis m.id)
  if visibleModels.isEmpty then
    { providerKey := providerKey, models := models, visibleModels := []
      avgPercentage := 0 }
  else
    { providerKey := providerKey, models := models, visibleModels := visibleModels
      avgPercentage := round1 (sumPct visibleModels / visibleModels.length) }

/-- Health status enum of `AccountStats`. -/
inductive HealthStatus where
  | healthy
  | degraded
  | limited
  | critical
  deriving DecidableEq, Repr

/-- `AccountStats` from provider-grouping.ts. -/
structure AccountStats where
  providers : List ProviderStats
  totalModels : Nat
  visibleModels : Nat
  overallPercentage : ℚ
  healthStatus : HealthStatus
  deriving DecidableEq, Repr

/-- The per-model info of the `models` record handed to
`groupModelsByProvider`. -/
structure QuotaInfo where
  percentage : ℚ
  resetTime : String
  deriving DecidableEq, Repr

/-- Conversion of a `models` record entry to a `ModelQuota` row
(the object literal built in the grouping loop). -/
def toModelQuota (e : String × QuotaInfo) : ModelQuota :=
  ⟨e.1, e.2.percentage, e.2.resetTime⟩

/-- The group of a registry key: the models whose detected provider is that
key, in record order (the TS code fills `grouped[key]` in iteration order). -/
def groupOf (models : List (String × QuotaInfo)) (key : String) : List ModelQuota :=
  (models.filter (fun e => detectProvider e.1 = key)).map toModelQuota

/-- The registry keys for which `grouped` has an entry, in registry order.
(The TS code builds `grouped` keyed in first-occurrence order and then
stable-sorts the provider list by registry index; since every detected key
is one of the distinct registry keys, the sorted list is the registry
order restricted to the keys that occur.) -/
def presentKeys (models : List (String × QuotaInfo)) : List String :=
  (PROVIDER_REGISTRY.map Prod.fst).filter
    (fun k => models.any (fun e => detectProvider e.1 = k))

/-- The sorted per-provider stats list built by `groupModelsByProvider`. -/
def providersOf (models : List (String × QuotaInfo))
    (vis : List (String × Bool)) : List ProviderStats :=
  (presentKeys models).map (fun k => calculateProviderStats k (groupOf models k) vis)

/-- `providers.flatMap((p) => p.visibleModels)`. -/
def allVisibleOf (models : List (String × QuotaInfo))
    (vis : List (String × Bool)) : List ModelQuota :=
  ((providersOf models vis).map ProviderStats.visibleModels).flatten

/-- The overall percentage before the one-decimal rounding. -/
def unroundedOverall (models : List (String × QuotaInfo))
    (vis : List (String × Bool)) : ℚ :=
  let allVisibleModels := allVisibleOf models vis
  if allVisibleModels.length > 0 then
    sumPct allVisibleModels / allVisibleModels.length
  else 0

/-- The health-status cascade of `groupModelsByProvider` (applied to the
unrounded overall percentage, as in the source). -/
def healthOf (overallPercentage : ℚ) : HealthStatus :=
  if overallPercentage < 10 then .critical
  else if overallPercentage < 25 then .limited
  else if overallPercentage < 50 then .degraded
  else .healthy

/-- `groupModelsByProvider` from provider-grouping.ts. -/
def groupModelsByProvider (models : List (String × QuotaInfo))
    (vis : List (String × Bool)) : AccountStats :=
  let providers := providersOf models vis
  let allVisibleModels := allVisibleOf models vis
  { providers := providers
    totalModels := (providers.map (fun p => p.models.length)).sum
    visibleModels := allVisibleModels.length
    overallPercentage := round1 (unroundedOverall models vis)
    healthStatus := healthOf (unroundedOverall models vis) }

/-! Spec-side definitions for the grouping claims, written from the
specification's words so they can be compared with the code-derived
definitions above. -/

/-- The visible models of the whole record, in record order
("all visible models across all provider groups"). -/
def specVisibleModels (models : List (String × QuotaInfo))
    (vis : List (String × Bool)) : List ModelQuota :=
  (models.filter (fun e => isVisible vis e.1)).map toModelQuota

/-- Spec I2: mean of the visible model percentages, rounded to one decimal;
`0` for an empty visible set. -/
def specOverallPercentage (models : List (String × QuotaInfo))
    (vis : List (String × Bool)) : ℚ :=
  let v := specVisibleModels models vis
  if v.isEmpty then 0 else round1 (sumPct v / v.length)

/-- The unrounded mean of the visible model percentages (`0` when empty). -/
def specUnroundedMean (models : List (String × QuotaInfo))
    (vis : List (String × Bool)) : ℚ :=
  let v := specVisibleModels models vis
  if v.isEmpty then 0 else sumPct v / v.length

/-- The spec's health thresholds, read off a percentage value:
`>=50` healthy, `[25,50)` degraded, `[10,25)` limited, `<10` critical. -/
def specHealthOf (q : ℚ) : HealthStatus :=
  if 50 ≤ q then .healthy
  else if 25 ≤ q then .degraded
  else if 10 ≤ q then .limited
  else .critical

/-! ## `src/utils/errorMessages.ts` -/

def KEYCHAIN_ERROR_CODE : String := "ERR_KEYCHAIN_UNAVAILABLE"
def KEYCHAIN_HINT_TRANSLOCATION : String := "HINT_APP_TRANSLOCATION"
def KEYCHAIN_HINT_KEYCHAIN_DENIED : String := "HINT_KEYCHAIN_DENIED"
def KEYCHAIN_HINT_SIGN_NOTARIZE : String := "HINT_SIGN_NOTARIZE"
def DATA_MIGRATION_ERROR_CODE : String := "ERR_DATA_MIGRATION_FAILED"
def DATA_MIGRATION_HINT_RELOGIN : String := "HINT_RELOGIN"
def DATA_MIGRATION_HINT_CLEAR_DATA : String := "HINT_CLEAR_DATA"

/-- `KEYCHAIN_HINT_I18N_MAP`. -/
def KEYCHAIN_HINT_I18N_MAP : List (String × String) :=
  [ (KEYCHAIN_HINT_TRANSLOCATION, "error.keychainHint.translocation")
  , (KEYCHAIN_HINT_KEYCHAIN_DENIED, "error.keychainHint.keychainDenied")
  , (KEYCHAIN_HINT_SIGN_NOTARIZE, "error.keychainHint.signNotarize") ]

/-- `DATA_MIGRATION_HINT_I18N_MAP`. -/
def DATA_MIGRATION_HINT_I18N_MAP : List (String × String) :=
  [ (DATA_MIGRATION_HINT_RELOGIN, "error.dataMigrationHint.relogin")
  , (DATA_MIGRATION_HINT_CLEAR_DATA, "error.dataMigrationHint.clearData") ]

/-- Record lookup in one of the hint maps. -/
def hintMapLookup (m : List (String × String)) (hint : String) : Option String :=
  (m.find? (fun e => e.1 = hint)).map Prod.snd

/-- `resolveKeychainMessage`.  The localization function `t` is passed in;
`hintCode` is `none` when the message had no second segment and `some ""`
when the segment was empty (both falsy in the JS `if (!hintCode)`). -/
def resolveKeychainMessage (hintCode : Option String) (t : String → String) : String :=
  let base := t "error.keychainUnavailable"
  match hintCode with
  | none => base
  | some h =>
    if h = "" then base
    else
      match hintMapLookup KEYCHAIN_HINT_I18N_MAP h with
      | none => base
      | some hintKey => base ++ " " ++ t hintKey

/-- `resolveDataMigrationMessage`. -/
def resolveDataMigrationMessage (hintCode : Option String) (t : String → String) : String :=
  let base := t "error.dataMigrationFailed"
  match hintCode with
  | none => base
  | some h =>
    if h = "" then base
    else
      match hintMapLookup DATA_MIGRATION_HINT_I18N_MAP h with
      | none => base
      | some hintKey => base ++ " " ++ t hintKey

/-- `getLocalizedErrorMessage` (the `Error`-instance branch: the input is
the error's `message` string; `rawMessage.split to get code and hint). -/
def getLocalizedErrorMessage (t : String → String) (rawMessage : String) : String :=
  let pieces := jsSplit '|' rawMessage
  let code := pieces.headD ""
  let hint := pieces.get? 1
  if code = KEYCHAIN_ERROR_CODE then resolveKeychainMessage hint t
  else if code = DATA_MIGRATION_ERROR_CODE then resolveDataMigrationMessage hint t
  else rawMessage

/-! ## `globalQuota` from `src/components/CloudAccountList.tsx` -/

/-- The quota snapshot of one account (`account.quota?.models`). -/
structure AccountQuota where
  models : List (String × QuotaInfo)
  deriving DecidableEq, Repr

/-- The slice of `CloudAccount` the global-quota computation reads. -/
structure CloudAccount where
  id : String
  quota : Option AccountQuota
  deriving DecidableEq, Repr

/-- The visible `(model, info)` entries of the whole pool, accounts without
a quota snapshot contributing nothing (the `forEach` accumulation). -/
def poolVisibleEntries (accounts : List CloudAccount)
    (vis : List (String × Bool)) : List (String × QuotaInfo) :=
  (accounts.map (fun a =>
    match a.quota with
    | none => []
    | some q => q.models.filter (fun e => isVisible vis e.1))).flatten

/-- `globalQuota` from CloudAccountList.tsx: `null` when there is no
account or no visible model, else the flat mean over all visible models of
all accounts, rounded to one decimal. -/
def globalQuota (accounts : List CloudAccount)
    (vis : List (String × Bool)) : Option ℚ :=
  if accounts.isEmpty then none
  else
    let entries := poolVisibleEntries accounts vis
    if entries.isEmpty then none
    else some (round1 ((entries.map (fun e => e.2.percentage)).sum / entries.length))

/-- Spec-side: the flat mean of the per-model percentages over all visible
models of all accounts pooled together (a single mean, not a mean of
per-account means), rounded to one decimal. -/
def specPoolMean (accounts : List CloudAccount)
    (vis : List (String × Bool)) : ℚ :=
  let entries := poolVisibleEntries accounts vis
  round1 ((entries.map (fun e => e.2.percentage)).sum / entries.length)

/-! ## A model of `JSON.parse`

`gemini.client.ts` feeds upstream error payloads through `JSON.parse`.
The parser below follows the JSON grammar: a value surrounded by
whitespace; strings reject unescaped control characters (in particular raw
newlines); only `true`/`false`/`null` appear as bare words.  Number tokens
are taken as a maximal run of number characters and kept raw (their
numeric value is never inspected by the error-extraction code). -/

/-- Parsed JSON values (JS values as produced by `JSON.parse`). -/
inductive Json where
  | null
  | bool (b : Bool)
  | num (raw : String)
  | str (s : String)
  | arr (elems : List Json)
  | obj (fields : List (String × Json))

/-- JSON whitespace (`ws` in the JSON grammar). -/
def isJsonWsChar (c : Char) : Bool :=
  c = ' ' || c = '\t' || c = '\n' || c = '\r'

/-- Skip JSON whitespace. -/
def skipWs (cs : List Char) : List Char :=
  cs.dropWhile isJsonWsChar

def isHexDigitChar (c : Char) : Bool :=
  c.isDigit || ('a' ≤ c && c ≤ 'f') || ('A' ≤ c && c ≤ 'F')

def hexVal (c : Char) : Nat :=
  if c.isDigit then c.toNat - '0'.toNat
  else if 'a' ≤ c && c ≤ 'f' then c.toNat - 'a'.toNat + 10
  else c.toNat - 'A'.toNat + 10

/-- The single-character escapes of JSON strings. -/
def escapeChar (e : Char) : Option Char :=
  if e = '"' then some '"'
  else if e = '\\' then some '\\'
  else if e = '/' then some '/'
  else if e = 'b' then some '\x08'
  else if e = 'f' then some '\x0c'
  else if e = 'n' then some '\n'
  else if e = 'r' then some '\r'
  else if e = 't' then some '\t'
  else none

/-- Parse the body of a JSON string (after the opening quote), returning
the decoded content and the input after the closing quote.  Unescaped
control characters (codepoints below 32, raw newlines included) are
rejected, as `JSON.parse` rejects them. -/
def parseStringBody : List Char → Option (List Char × List Char)
  | [] => none
  | c :: cs =>
    if c = '"' then some ([], cs)
    else if c = '\\' then
      match cs with
      | [] => none
      | e :: cs1 =>
        if e = 'u' then
          match cs1 with
          | h1 :: h2 :: h3 :: h4 :: cs2 =>
            if isHexDigitChar h1 && isHexDigitChar h2 && isHexDigitChar h3
                && isHexDigitChar h4 then
              match parseStringBody cs2 with
              | some (content, rest) =>
                some (Char.ofNat
                  (((hexVal h1 * 16 + hexVal h2) * 16 + hexVal h3) * 16 + hexVal h4)
                  :: content, rest)
              | none => none
            else none
          | _ => none
        else
          match escapeChar e with
          | some d =>
            match parseStringBody cs1 with
            | some (content, rest) => some (d :: content, rest)
            | none => none
          | none => none
    else if c.toNat < 32 then none
    else
      match parseStringBody cs with
      | some (content, rest) => some (c :: content, rest)
      | none => none

/-- Match a literal word (the tails of `true` / `false` / `null`). -/
def stripWordChars : List Char → List Char → Option (List Char)
  | [], cs => some cs
  | _ :: _, [] => none
  | p :: ps, c :: cs => if c = p then stripWordChars ps cs else none

/-- Characters a number token may contain. -/
def isNumChar (c : Char) : Bool :=
  c.isDigit || c = '-' || c = '+' || c = '.' || c = 'e' || c = 'E'

/-- Take a maximal nonempty run of number characters. -/
def parseNumberToken (cs : List Char) : Option (List Char × List Char) :=
  let tok := cs.takeWhile isNumChar
  if tok.isEmpty then none else some (tok, cs.dropWhile isNumChar)

mutual

/-- Parse one JSON value (fuelled recursion; `tryParseJson` supplies ample
fuel). The input starts at the value's first character. -/
def parseValue : Nat → List Char → Option (Json × List Char)
  | 0, _ => none
  | f + 1, cs =>
    match cs with
    | [] => none
    | c :: rest =>
      if c = '"' then
        match parseStringBody rest with
        | some (content, r) => some (.str (String.mk content), r)
        | none => none
      else if c = '{' then
        match skipWs rest with
        | d :: r2 => if d = '}' then some (.obj [], r2) else parseMembers f [] (skipWs rest)
        | [] => none
      else if c = '[' then
        match skipWs rest with
        | d :: r2 => if d = ']' then some (.arr [], r2) else parseElems f [] (skipWs rest)
        | [] => none
      else if c = 't' then
        match stripWordChars ['r', 'u', 'e'] rest with
        | some r => some (.bool true, r)
        | none => none
      else if c = 'f' then
        match stripWordChars ['a', 'l', 's', 'e'] rest with
        | some r => some (.bool false, r)
        | none => none
      else if c = 'n' then
        match stripWordChars ['u', 'l', 'l'] rest with
        | some r => some (.null, r)
        | none => none
      else if c = '-' || c.isDigit then
        match parseNumberToken cs with
        | some (tok, r) => some (.num (String.mk tok), r)
        | none => none
      else none

/-- Parse the members of an object, positioned at the start of a key. -/
def parseMembers : Nat → List (String × Json) → List Char → Option (Json × List Char)
  | 0, _, _ => none
  | f + 1, acc, cs =>
    match cs with
    | [] => none
    | c :: rest =>
      if c = '"' then
        match parseStringBody rest with
        | some (keyChars, r1) =>
          match skipWs r1 with
          | colon :: r2 =>
            if colon = ':' then
              match parseValue f (skipWs r2) with
              | some (v, r3) =>
                match skipWs r3 with
                | sep :: r4 =>
                  if sep = ',' then
                    parseMembers f (acc ++ [(String.mk keyChars, v)]) (skipWs r4)
                  else if sep = '}' then
                    some (.obj (acc ++ [(String.mk keyChars, v)]), r4)
                  else none
                | [] => none
              | none => none
            else none
          | [] => none
        | none => none
      else none

/-- Parse the elements of an array, positioned at the start of a value. -/
def parseElems : Nat → List Json → List Char → Option (Json × List Char)
  | 0, _, _ => none
  | f + 1, acc, cs =>
    match parseValue f cs with
    | some (v, r1) =>
      match skipWs r1 with
      | sep :: r2 =>
        if sep = ',' then parseElems f (acc ++ [v]) (skipWs r2)
        else if sep = ']' then some (.arr (acc ++ [v]), r2)
        else none
      | [] => none
    | none => none

end

/-- `tryParseJson` from gemini.client.ts: `JSON.parse`, with failures
turned into `none`.  The whole input, less surrounding whitespace, must be
one JSON value. -/
def tryParseJson (cs : List Char) : Option Json :=
  match parseValue (cs.length + 1) (skipWs cs) with
  | some (j, rest) => if (skipWs rest).isEmpty then some j else none
  | none => none

/-! ## Error-message extraction (`gemini.client.ts`) -/

/-- Field lookup on a parsed JSON object; with duplicate keys `JSON.parse`
keeps the last occurrence, hence the reversed search. -/
def jsonObjGet (fields : List (String × Json)) (key : String) : Option Json :=
  (fields.reverse.find? (fun e => e.1 = key)).map Prod.snd

/-- `message.trim()` when non-empty, else nothing. -/
def trimmedNonEmpty (m : String) : Option String :=
  let t := trimChars m.data
  if t.isEmpty then none else some (String.mk t)

/-- `extractAxiosErrorMessageFromObject`: `.error.message` (when `.error`
is an object carrying a non-empty string message), else `.message`. -/
def extractAxiosErrorMessageFromObject : Json → Option String
  | .obj fields =>
    let fromErrorField :=
      match jsonObjGet fields "error" with
      | some (.obj efields) =>
        match jsonObjGet efields "message" with
        | some (.str m) => trimmedNonEmpty m
        | _ => none
      | _ => none
    (match fromErrorField with
     | some m => some m
     | none =>
       match jsonObjGet fields "message" with
       | some (.str m) => trimmedNonEmpty m
       | _ => none)
  | _ => none

/-- The trimmed lines of the text that start with `data:`. -/
def sseDataLines (cs : List Char) : List (List Char) :=
  ((splitOnChar '\n' cs).map trimChars).filter
    (fun l => "data:".data.isPrefixOf l)

/-- The loop over SSE `data:` lines: decode each frame's payload and return
the first non-empty message (empty payloads and `[DONE]` are skipped). -/
def firstSseMessage (cs : List Char) : Option String :=
  (sseDataLines cs).findSome? (fun line =>
    let payload := trimChars (line.drop 5)
    if payload = [] ∨ payload = "[DONE]".data then none
    else
      match tryParseJson payload with
      | some j => extractAxiosErrorMessageFromObject j
      | none => none)

/-- `extractAxiosErrorMessageFromText`: trim; empty text yields nothing;
then the SSE `data:` lines are scanned, and finally the whole text is
parsed as JSON. -/
def extractAxiosErrorMessageFromText (rawText : String) : Option String :=
  let text := trimChars rawText.data
  if text = [] then none
  else
    match firstSseMessage text with
    | some m => some m
    | none =>
      match tryParseJson text with
      | some j => extractAxiosErrorMessageFromObject j
      | none => none

/-- The `error.response?.data` payload as the dispatcher may see it.
Streams are excluded from the embedding (they involve asynchronous I/O);
`undef` stands for `undefined` and any other non-structured value. -/
inductive RespData where
  | objectLike (j : Json)
  | strData (s : String)
  | bufferData (s : String)
  | undef

/-- `extractAxiosErrorMessage`: object lookup for object payloads, the text
rule for strings and (UTF-8 decoded) buffers, nothing otherwise. -/
def extractAxiosErrorMessage : RespData → Option String
  | .objectLike j => extractAxiosErrorMessageFromObject j
  | .strData s => extractAxiosErrorMessageFromText s
  | .bufferData s => extractAxiosErrorMessageFromText s
  | .undef => none

/-- Spec-side text rule, in the claim's order: parse the whole text as JSON
first and, only if that fails, parse each `data:` SSE line. -/
def specExtractFromText (rawText : String) : Option String :=
  let text := trimChars rawText.data
  if text = [] then none
  else
    match tryParseJson text with
    | some j => extractAxiosErrorMessageFromObject j
    | none => firstSseMessage text

/-- Spec-side extraction over every payload shape. -/
def specExtractAxiosErrorMessage : RespData → Option String
  | .objectLike j => extractAxiosErrorMessageFromObject j
  | .strData s => specExtractFromText s
  | .bufferData s => specExtractFromText s
  | .undef => none

/-! ## The upstream dispatcher (`gemini.client.ts`) -/

/-- An upstream HTTP response attached to an axios error. -/
structure AxiosResp where
  status : Nat
  data : RespData

/-- An error caught around `axios.post`: either an axios error (with or
without an HTTP response) or some other thrown value. -/
inductive UpstreamError where
  | axios (message : String) (response : Option AxiosResp)
  | nonAxios (message : String)

/-- `shouldSwitchEndpointOnError`: non-axios errors do not switch; axios
errors without a response (network, DNS, timeout) switch; 401/403 fail
fast; 408/429 and any 5xx switch; every other status fails fast. -/
def shouldSwitchEndpointOnError : UpstreamError → Bool
  | .nonAxios _ => false
  | .axios _ none => true
  | .axios _ (some r) =>
    if r.status = 401 ∨ r.status = 403 then false
    else decide (r.status = 408 ∨ r.status = 429 ∨ 500 ≤ r.status)

/-- `handleAxiosError`, modelled by the message of the error it throws:
`some s` means "throws an error with message `s`", `none` would mean
"returns normally" — which no branch of the source does. -/
def handleAxiosError : Option UpstreamError → Option String
  | some (.axios msg resp) =>
    let responseData := match resp with | some r => r.data | none => RespData.undef
    some ((extractAxiosErrorMessage responseData).getD msg)
  | some (.nonAxios msg) => some msg
  | none => some "null"

/-- The outcome of one endpoint attempt (`axios.post` against one base
URL): the resolved response, or the caught error. -/
inductive Attempt (α : Type) where
  | success (resp : α)
  | failure (e : UpstreamError)

/-- How a call to `requestWithEndpointFailover` ends. `unreachableThrow` is
the trailing `[operation] unexpected control flow` throw after the loop. -/
inductive FailoverOutcome (α : Type) where
  | ok (resp : α)
  | thrown (message : String)
  | unreachableThrow

/-- `requestWithEndpointFailover`, as a function of the per-endpoint
attempt outcomes (one entry per configured base URL, in order).  Returns
the number of POSTs issued and the outcome.  The loop mirrors the source:
a success returns immediately; on error, if there is no further endpoint
or the error is not retryable, `handleAxiosError` is invoked (and, were it
ever to return normally, the loop would continue); after the loop the last
error is handed to `handleAxiosError` once more. -/
def requestWithEndpointFailover {α : Type} :
    Option UpstreamError → List (Attempt α) → Nat × FailoverOutcome α
  | lastErr, [] =>
    (match handleAxiosError lastErr with
     | some s => (0, .thrown s)
     | none => (0, .unreachableThrow))
  | _, .success r :: _ => (1, .ok r)
  | _, .failure e :: rest =>
    if rest.isEmpty || !shouldSwitchEndpointOnError e then
      match handleAxiosError (some e) with
      | some s => (1, .thrown s)
      | none =>
        let p := requestWithEndpointFailover (some e) rest
        (p.1 + 1, p.2)
    else
      let p := requestWithEndpointFailover (some e) rest
      (p.1 + 1, p.2)

/-- The response of the first successful attempt, if any. -/
def firstSuccess {α : Type} : List (Attempt α) → Option α
  | [] => none
  | .success r :: _ => some r
  | .failure _ :: rest => firstSuccess rest

/-- Spec-side: is the error an HTTP response error (an axios error that
carries an HTTP response)?  Network, DNS and timeout failures are axios
errors without a response. -/
def isHttpResponseError : UpstreamError → Bool
  | .axios _ (some _) => true
  | _ => false

/-- Is the caught value an axios error at all (`axios.isAxiosError`)? -/
def isAxiosShaped : UpstreamError → Bool
  | .axios _ _ => true
  | .nonAxios _ => false

/-- The HTTP status carried by the error, when there is one. -/
def httpStatusOf : UpstreamError → Option Nat
  | .axios _ (some r) => some r.status
  | _ => none

/-- The claim's classification table, read literally: any error that is not
an HTTP response error is retried on the next endpoint; 401/403 are
terminal; 408/429 and ≥500 are retried; any other status is terminal. -/
def claimSwitchRule (e : UpstreamError) : Bool :=
  match httpStatusOf e with
  | none => true
  | some s =>
    if s = 401 ∨ s = 403 then false
    else decide (s = 408 ∨ s = 429 ∨ 500 ≤ s)

/-! ## Request transformer (claim C2)

`transformClaudeRequestIn` and the `SignatureStore` live in
`src/lib/antigravity/`, which is not part of the sources here; only their
test suite is.  The definitions below are therefore modelled from the
specification (§4.2, §4.7) rather than translated from code. -/

/-- Modelled from the spec: the Signature Store content; a signature is
valid iff it is a non-empty opaque string of length at least 10, and the
store "has a valid signature" when any stored entry is valid. -/
def hasValidSignature (store : List String) : Bool :=
  store.any (fun s => 10 ≤ s.length)

/-- The dialect-A `thinking` parameter. -/
structure ThinkingParam where
  ttype : String
  budget_tokens : Nat
  deriving DecidableEq, Repr

/-- The slice of a dialect-A request the transformer's system-instruction,
thinking and generation-config steps read. -/
structure ClaudeRequest where
  model : String
  system : Option String
  tools : List String
  thinking : Option ThinkingParam
  max_tokens : Nat
  deriving DecidableEq, Repr

/-- `generationConfig.thinkingConfig`. -/
structure ThinkingConfig where
  thinkingBudget : Nat
  deriving DecidableEq, Repr

/-- `generationConfig` of the dialect-B request. -/
structure GenerationConfig where
  maxOutputTokens : Nat
  thinkingConfig : Option ThinkingConfig
  deriving DecidableEq, Repr

/-- The dialect-B request (message translation is out of the claims'
scope and not modelled). -/
structure GeminiInternalRequest where
  project : String
  systemInstructionParts : List String
  toolNames : List String
  generationConfig : GenerationConfig
  deriving DecidableEq, Repr

/-- Modelled from the spec: the core-owned identity block bearing the
`IDENTITY_PATCH` marker. -/
def identityBlock : String :=
  "--- [IDENTITY_PATCH] ---\nYou are Antigravity, an agentic AI coding assistant."

/-- Modelled from the spec: `transformClaudeRequestIn` (steps 3, 5, 6 and 7
of §4.7 — system-instruction assembly, thinking safety, generation config
and project binding; message translation is omitted).  If thinking is
enabled and the request declares tools while the store holds no valid
signature, `thinkingConfig` is silently dropped; otherwise the thinking
budget is passed through. -/
def transformClaudeRequestIn (store : List String) (req : ClaudeRequest)
    (projectId : String) : GeminiInternalRequest :=
  let userSystem := req.system.getD ""
  let needsIdentity := !jsIncludes "Antigravity" userSystem
  let parts :=
    (if needsIdentity then [identityBlock] else []) ++
    (match req.system with | some s => [s] | none => [])
  let thinkingCfg : Option ThinkingConfig :=
    match req.thinking with
    | some th =>
      if th.ttype = "enabled" then
        if 0 < req.tools.length && !hasValidSignature store then none
        else some ⟨th.budget_tokens⟩
      else none
    | none => none
  { project := projectId
    systemInstructionParts := parts
    toolNames := req.tools
    generationConfig := { maxOutputTokens := req.max_tokens, thinkingConfig := thinkingCfg } }

/-! ## Proof devices for the extraction-order equivalence (claim C3)

The source scans SSE `data:` lines before attempting to parse the whole
text as JSON; the specification states the opposite order.  The two are
extensionally equal because no line of a text accepted by `JSON.parse` can
start (after trimming) with the letter `d`: the letter occurs only inside
string literals, which cannot contain a raw newline.  The scanner below
tracks, per line, whether a non-whitespace character has been seen, and
fails on a `d` that opens a line. -/

/-- Line-aware scan: `b` records whether the current line already holds a
non-whitespace character; the scan fails on a `d` opening a line, and
otherwise returns the flag after the last character. -/
def dScan : Bool → List Char → Option Bool
  | b, [] => some b
  | b, c :: cs =>
    if c = '\n' then dScan false cs
    else if isJsWsChar c then dScan b cs
    else if c = 'd' ∧ b = false then none
    else dScan true cs

/-- A chunk is safe when the scan passes over it from any entry flag. -/
def safeChunk (u : List Char) : Prop :=
  ∀ b, (dScan b u).isSome = true

/-- The first non-whitespace character of the line is a `d`. -/
def lineStartsD (l : List Char) : Prop :=
  (l.dropWhile isJsWsChar).head? = some 'd'

/-! # Theorems

Helper lemmas first, then one theorem per claim (with witnesses and
counterexamples where required). -/

/-! ## Provider grouping: helper lemmas -/

theorem sum_map_ite_mem {M : Type} [AddCommMonoid M] (keys : List String) (v : String)
    (gx : M) (S : String → M) (hv : v ∈ keys) (hnd : keys.Nodup) :
    (keys.map (fun k => if v = k then gx + S k else S k)).sum = gx + (keys.map S).sum := by
  induction keys with
  | nil => cases hv
  | cons k ks ih =>
    rcases List.mem_cons.mp hv with hvk | hvks
    · subst hvk
      have hnot : v ∉ ks := (List.nodup_cons.mp hnd).1
      have hmap : ks.map (fun k => if v = k then gx + S k else S k) = ks.map S := by
        apply List.map_congr_left
        intro x hx
        have hne : v ≠ x := fun hcontra => hnot (hcontra ▸ hx)
        simp [hne]
      simp [hmap, add_assoc]
    · have hvk : v ≠ k := by
        intro hcontra
        exact (List.nodup_cons.mp hnd).1 (hcontra ▸ hvks)
      have ihh := ih hvks (List.nodup_cons.mp hnd).2
      simp [hvk, ihh, add_left_comm]

/-- Summing group-wise over a fibering function recovers the total sum. -/
theorem fiber_sum {α M : Type} [AddCommMonoid M] (keys : List String) (f : α → String)
    (g : α → M) (l : List α) (hnd : keys.Nodup) (hmem : ∀ x ∈ l, f x ∈ keys) :
    (keys.map (fun k => ((l.filter (fun x => f x = k)).map g).sum)).sum
      = (l.map g).sum := by
  induction l with
  | nil => simp
  | cons x l ih =>
    have hx : f x ∈ keys := hmem x (List.mem_cons_self x l)
    have hrest : ∀ y ∈ l, f y ∈ keys := fun y hy => hmem y (List.mem_cons_of_mem x hy)
    have hmap : keys.map (fun k => (((x :: l).filter (fun y => f y = k)).map g).sum)
        = keys.map (fun k => if f x = k then g x + ((l.filter (fun y => f y = k)).map g).sum
            else ((l.filter (fun y => f y = k)).map g).sum) := by
      apply List.map_congr_left
      intro k _
      by_cases h : f x = k
      · simp [List.filter_cons, h]
      · simp [List.filter_cons, h]
    rw [hmap, sum_map_ite_mem keys (f x) (g x) _ hx hnd, ih hrest]
    simp

theorem calcStats_visibleModels (k : String) (ms : List ModelQuota)
    (vis : List (String × Bool)) :
    (calculateProviderStats k ms vis).visibleModels
      = ms.filter (fun m => isVisible vis m.id) := by
  simp only [calculateProviderStats]
  cases h : (ms.filter (fun m => isVisible vis m.id)).isEmpty with
  | true =>
    simp only [if_pos rfl]
    exact (List.isEmpty_iff.mp h).symm
  | false => simp

theorem groupOf_eq_nil (models : List (String × QuotaInfo)) (k : String)
    (h : (models.any (fun e => detectProvider e.1 = k)) = false) :
    groupOf models k = [] := by
  unfold groupOf
  have hfil : models.filter (fun e => detectProvider e.1 = k) = [] := by
    apply List.filter_eq_nil_iff.mpr
    intro e he hdet
    have hany : models.any (fun e => detectProvider e.1 = k) = true :=
      List.any_eq_true.mpr ⟨e, he, hdet⟩
    rw [h] at hany
    exact Bool.false_ne_true hany
  rw [hfil]; rfl

theorem detectProvider_mem (m : String) :
    detectProvider m ∈ PROVIDER_REGISTRY.map Prod.fst := by
  unfold detectProvider
  cases h : (PROVIDER_REGISTRY.map Prod.fst).find?
      (fun p => p ≠ "others" && p.data.isPrefixOf m.data) with
  | some p => exact List.mem_of_find?_eq_some h
  | none => simp [PROVIDER_REGISTRY]

/-- The visible models collected group-by-group are the visible models of
the record, fibred over the registry keys. -/
theorem allVisibleOf_eq (models : List (String × QuotaInfo)) (vis : List (String × Bool)) :
    allVisibleOf models vis
      = ((PROVIDER_REGISTRY.map Prod.fst).map (fun k =>
          ((models.filter (fun e => isVisible vis e.1)).filter
            (fun e => detectProvider e.1 = k)).map toModelQuota)).flatten := by
  unfold allVisibleOf providersOf presentKeys
  rw [List.map_map]
  have step1 : ∀ keys : List String,
      keys.map (ProviderStats.visibleModels ∘ fun k =>
          calculateProviderStats k (groupOf models k) vis)
        = keys.map (fun k => (groupOf models k).filter (fun m => isVisible vis m.id)) := by
    intro keys
    apply List.map_congr_left
    intro k _
    exact calcStats_visibleModels k (groupOf models k) vis
  rw [step1]
  have step2 : (((PROVIDER_REGISTRY.map Prod.fst).filter
        (fun k => models.any (fun e => detectProvider e.1 = k))).map
          (fun k => (groupOf models k).filter (fun m => isVisible vis m.id))).flatten
      = ((PROVIDER_REGISTRY.map Prod.fst).map
          (fun k => (groupOf models k).filter (fun m => isVisible vis m.id))).flatten := by
    induction (PROVIDER_REGISTRY.map Prod.fst) with
    | nil => rfl
    | cons k ks ih =>
      cases h : models.any (fun e => detectProvider e.1 = k) with
      | true => simp [List.filter_cons, h, ih]
      | false =>
        have hempty : groupOf models k = [] := groupOf_eq_nil models k h
        simp [List.filter_cons, h, hempty, ih]
  rw [step2]
  apply congrArg
  apply List.map_congr_left
  intro k _
  unfold groupOf
  rw [List.filter_map]
  have hcomp : (fun m => isVisible vis (ModelQuota.id m)) ∘ toModelQuota
      = (fun e : String × QuotaInfo => isVisible vis e.1) := rfl
  rw [hcomp, List.filter_comm]

theorem sumPct_flatten (L : List (List ModelQuota)) :
    sumPct L.flatten = (L.map sumPct).sum := by
  unfold sumPct
  induction L with
  | nil => simp
  | cons a L ih =>
    simp [ih, Function.comp]
    rfl

theorem sum_map_ones {α : Type} (l : List α) :
    (l.map (fun _ => (1 : ℕ))).sum = l.length := by
  induction l with
  | nil => rfl
  | cons a l ih => simp [ih, Nat.add_comm]

theorem registryKeys_nodup : (PROVIDER_REGISTRY.map Prod.fst).Nodup := by decide

theorem sumPct_spec (models : List (String × QuotaInfo)) (vis : List (String × Bool)) :
    sumPct (specVisibleModels models vis)
      = ((models.filter (fun e => isVisible vis e.1)).map (fun e => e.2.percentage)).sum := by
  unfold specVisibleModels sumPct
  rw [List.map_map]
  rfl

theorem sumPct_allVisible (models : List (String × QuotaInfo)) (vis : List (String × Bool)) :
    sumPct (allVisibleOf models vis) = sumPct (specVisibleModels models vis) := by
  rw [allVisibleOf_eq, sumPct_flatten, List.map_map, sumPct_spec]
  have hmap : (PROVIDER_REGISTRY.map Prod.fst).map
      (sumPct ∘ fun k => ((models.filter (fun e => isVisible vis e.1)).filter
        (fun e => detectProvider e.1 = k)).map toModelQuota)
      = (PROVIDER_REGISTRY.map Prod.fst).map
        (fun k => (((models.filter (fun e => isVisible vis e.1)).filter
          (fun e => detectProvider e.1 = k)).map (fun e => e.2.percentage)).sum) := by
    apply List.map_congr_left
    intro k _
    show sumPct _ = _
    unfold sumPct
    rw [List.map_map]
    rfl
  rw [hmap]
  exact fiber_sum (M := ℚ) (PROVIDER_REGISTRY.map Prod.fst)
    (fun e : String × QuotaInfo => detectProvider e.1)
    (fun e => e.2.percentage)
    (models.filter (fun e => isVisible vis e.1))
    registryKeys_nodup
    (fun x _ => detectProvider_mem x.1)

theorem length_allVisible (models : List (String × QuotaInfo)) (vis : List (String × Bool)) :
    (allVisibleOf models vis).length = (specVisibleModels models vis).length := by
  rw [allVisibleOf_eq, List.length_flatten, List.map_map]
  unfold specVisibleModels
  rw [List.length_map]
  have hmap : (PROVIDER_REGISTRY.map Prod.fst).map
      (List.length ∘ fun k => ((models.filter (fun e => isVisible vis e.1)).filter
        (fun e => detectProvider e.1 = k)).map toModelQuota)
      = (PROVIDER_REGISTRY.map Prod.fst).map
        (fun k => (((models.filter (fun e => isVisible vis e.1)).filter
          (fun e => detectProvider e.1 = k)).map (fun _ => (1 : ℕ))).sum) := by
    apply List.map_congr_left
    intro k _
    show List.length _ = _
    rw [List.length_map, sum_map_ones]
  rw [hmap]
  have hfib := fiber_sum (M := ℕ) (PROVIDER_REGISTRY.map Prod.fst)
    (fun e : String × QuotaInfo => detectProvider e.1)
    (fun _ => (1 : ℕ))
    (models.filter (fun e => isVisible vis e.1))
    registryKeys_nodup
    (fun x _ => detectProvider_mem x.1)
  rw [hfib, sum_map_ones]

theorem unrounded_eq (models : List (String × QuotaInfo)) (vis : List (String × Bool)) :
    unroundedOverall models vis = specUnroundedMean models vis := by
  simp only [unroundedOverall, specUnroundedMean]
  rw [sumPct_allVisible, length_allVisible]
  cases h : (specVisibleModels models vis).isEmpty with
  | true =>
    have hlen : (specVisibleModels models vis).length = 0 := by
      rw [List.isEmpty_iff.mp h]; rfl
    simp [hlen, h]
  | false =>
    have hne : specVisibleModels models vis ≠ [] := by
      intro hcontra
      rw [hcontra] at h
      simp at h
    have hlen : 0 < (specVisibleModels models vis).length := List.length_pos.mpr hne
    simp [hlen, h]

theorem round1_zero : round1 0 = 0 := by
  rw [round1, jsMathRound]
  have h : (0 : ℚ) * 10 + 1 / 2 = 1 / 2 := by norm_num
  rw [h]
  have hf : ⌊(1 / 2 : ℚ)⌋ = 0 := by
    apply Int.floor_eq_zero_iff.mpr
    constructor <;> norm_num
  rw [hf]
  norm_num

theorem healthOf_eq_spec (q : ℚ) : healthOf q = specHealthOf q := by
  unfold healthOf specHealthOf
  split_ifs <;> first | rfl | (exfalso; linarith)

/-! ## Claim theorems for the provider grouping (C5, C6, C7) -/

/-- Claim C5: `groupModelsByProvider` returns an `overallPercentage` equal
to the arithmetic mean of the percentages of all visible models across all
provider groups, rounded to one decimal, and `0` when the set of visible
models is empty (which is exactly `specOverallPercentage`). -/
theorem groupOverall_spec (models : List (String × QuotaInfo)) (vis : List (String × Bool)) :
    (groupModelsByProvider models vis).overallPercentage = specOverallPercentage models vis := by
  simp only [groupModelsByProvider]
  rw [unrounded_eq]
  simp only [specUnroundedMean, specOverallPercentage]
  cases h : (specVisibleModels models vis).isEmpty with
  | true => simp [h, round1_zero]
  | false => simp [h]

/-- Claim C6, counterexample: for a single visible model at percentage
49.95 the returned `overallPercentage` is `50` (rounded to one decimal),
yet `healthStatus` is `degraded` — the claim, which determines the status
from the returned (rounded) value, would demand `healthy` (≥ 50). -/
theorem groupHealth_cex :
    (groupModelsByProvider [("m", ⟨999/20, "x"⟩)] []).overallPercentage = 50 ∧
    (groupModelsByProvider [("m", ⟨999/20, "x"⟩)] []).healthStatus = HealthStatus.degraded ∧
    specHealthOf (50 : ℚ) = HealthStatus.healthy := by
  have h1 : specUnroundedMean [("m", ⟨999/20, "x"⟩)] [] = 999/20 := by
    simp [specUnroundedMean, specVisibleModels, isVisible, visLookup, sumPct,
      toModelQuota, List.filter]
  have h2 : round1 (999/20 : ℚ) = 50 := by
    rw [round1, jsMathRound]
    have hcast : (999 : ℚ)/20 * 10 + 1/2 = ((500 : ℤ) : ℚ) := by norm_num
    rw [hcast, Int.floor_intCast]
    norm_num
  refine ⟨?_, ?_, ?_⟩
  · simp only [groupModelsByProvider]
    rw [unrounded_eq, h1, h2]
  · simp only [groupModelsByProvider]
    rw [unrounded_eq, h1]
    norm_num [healthOf]
  · norm_num [specHealthOf]

/-- Claim C6, amended: `healthStatus` is determined by the *unrounded*
mean of the visible model percentages (the value prior to the one-decimal
rounding applied to the returned `overallPercentage`), with the spec's
thresholds. -/
theorem groupHealth_amended (models : List (String × QuotaInfo)) (vis : List (String × Bool)) :
    (groupModelsByProvider models vis).healthStatus
      = specHealthOf (specUnroundedMean models vis) := by
  simp only [groupModelsByProvider]
  rw [unrounded_eq]
  exact healthOf_eq_spec _

/-- Claim C7: `detectProvider` is total and returns the first registered
prefix (in registry declaration order `claude-`, `gemini-`) that is a
string prefix of the model name, or `others` when no registered prefix
matches. -/
theorem detectProvider_cases (m : String) :
    (detectProvider m = "claude-" ∧ "claude-".data.isPrefixOf m.data = true)
    ∨ (detectProvider m = "gemini-" ∧ "gemini-".data.isPrefixOf m.data = true
        ∧ "claude-".data.isPrefixOf m.data = false)
    ∨ (detectProvider m = "others" ∧ "claude-".data.isPrefixOf m.data = false
        ∧ "gemini-".data.isPrefixOf m.data = false) := by
  cases hc : "claude-".data.isPrefixOf m.data with
  | true =>
    left
    refine ⟨?_, rfl⟩
    simp [detectProvider, PROVIDER_REGISTRY, List.find?, hc]
  | false =>
    cases hg : "gemini-".data.isPrefixOf m.data with
    | true =>
      right; left
      refine ⟨?_, rfl, rfl⟩
      simp [detectProvider, PROVIDER_REGISTRY, List.find?, hc, hg]
    | false =>
      right; right
      refine ⟨?_, rfl, rfl⟩
      simp [detectProvider, PROVIDER_REGISTRY, List.find?, hc, hg]

/-! ## Claims C8, C9 (global quota, localized errors) and C1, C2, C4, C10 -/

/-- Claim C8: whenever the pool has at least one visible model, the global
quota is the flat arithmetic mean of the per-model percentages over all
visible models of all accounts pooled together (one mean, not a mean of
per-account means), rounded to one decimal. -/
theorem globalQuota_flat_mean (accounts : List CloudAccount) (vis : List (String × Bool))
    (h : poolVisibleEntries accounts vis ≠ []) :
    globalQuota accounts vis = some (specPoolMean accounts vis) := by
  have haccts : accounts ≠ [] := by
    intro hcontra
    apply h
    rw [hcontra]
    rfl
  cases ha : accounts.isEmpty with
  | true => exact absurd (List.isEmpty_iff.mp ha) haccts
  | false =>
    cases he : (poolVisibleEntries accounts vis).isEmpty with
    | true => exact absurd (List.isEmpty_iff.mp he) h
    | false => simp [globalQuota, specPoolMean, ha, he]

theorem globalQuota_flat_mean_wit :
    poolVisibleEntries
        [⟨"a", some ⟨[("m1", ⟨30, "x"⟩), ("m2", ⟨60, "x"⟩)]⟩⟩, ⟨"b", some ⟨[("m3", ⟨90, "x"⟩)]⟩⟩]
        [] ≠ [] ∧
      globalQuota
        [⟨"a", some ⟨[("m1", ⟨30, "x"⟩), ("m2", ⟨60, "x"⟩)]⟩⟩, ⟨"b", some ⟨[("m3", ⟨90, "x"⟩)]⟩⟩]
        []
      = some (specPoolMean
        [⟨"a", some ⟨[("m1", ⟨30, "x"⟩), ("m2", ⟨60, "x"⟩)]⟩⟩, ⟨"b", some ⟨[("m3", ⟨90, "x"⟩)]⟩⟩]
        []) :=
  ⟨by decide, globalQuota_flat_mean _ _ (by decide)⟩

theorem splitOnChar_append_sep (sep : Char) (a b : List Char) (ha : sep ∉ a) :
    splitOnChar sep (a ++ sep :: b) = a :: splitOnChar sep b := by
  induction a with
  | nil => simp [splitOnChar]
  | cons c a ih =>
    have hc : c ≠ sep := fun hcon => ha (hcon ▸ List.mem_cons_self c a)
    simp only [List.cons_append, splitOnChar, if_neg hc, List.append_eq]
    rw [ih (fun hm => ha (List.mem_cons_of_mem c hm))]

theorem splitOnChar_not_mem (sep : Char) (b : List Char) (hb : sep ∉ b) :
    splitOnChar sep b = [b] := by
  induction b with
  | nil => rfl
  | cons c b ih =>
    have hc : c ≠ sep := fun hcon => hb (hcon ▸ List.mem_cons_self c b)
    simp only [splitOnChar, if_neg hc, ih (fun hm => hb (List.mem_cons_of_mem c hm))]

theorem jsSplit_code_hint (code hint : String) (hc : '|' ∉ code.data) (hh : '|' ∉ hint.data) :
    jsSplit '|' (code ++ "|" ++ hint) = [code, hint] := by
  unfold jsSplit
  have hdata : (code ++ "|" ++ hint).data = code.data ++ '|' :: hint.data := by
    rw [String.data_append, String.data_append, List.append_assoc]
    rfl
  rw [hdata, splitOnChar_append_sep '|' _ _ hc, splitOnChar_not_mem '|' _ hh]
  rfl



theorem resolveKeychain_unknown (t : String → String) (hint : String)
    (h1 : hint ≠ KEYCHAIN_HINT_TRANSLOCATION) (h2 : hint ≠ KEYCHAIN_HINT_KEYCHAIN_DENIED)
    (h3 : hint ≠ KEYCHAIN_HINT_SIGN_NOTARIZE) :
    resolveKeychainMessage (some hint) t = t "error.keychainUnavailable" := by
  unfold resolveKeychainMessage
  by_cases h0 : hint = ""
  · simp [h0]
  · have hl : hintMapLookup KEYCHAIN_HINT_I18N_MAP hint = none := by
      simp [hintMapLookup, KEYCHAIN_HINT_I18N_MAP, List.find?,
        show KEYCHAIN_HINT_TRANSLOCATION ≠ hint from fun hcon => h1 hcon.symm,
        show KEYCHAIN_HINT_KEYCHAIN_DENIED ≠ hint from fun hcon => h2 hcon.symm,
        show KEYCHAIN_HINT_SIGN_NOTARIZE ≠ hint from fun hcon => h3 hcon.symm]
    simp [h0, hl]

theorem resolveDataMigration_unknown (t : String → String) (hint : String)
    (h1 : hint ≠ DATA_MIGRATION_HINT_RELOGIN) (h2 : hint ≠ DATA_MIGRATION_HINT_CLEAR_DATA) :
    resolveDataMigrationMessage (some hint) t = t "error.dataMigrationFailed" := by
  unfold resolveDataMigrationMessage
  by_cases h0 : hint = ""
  · simp [h0]
  · have hl : hintMapLookup DATA_MIGRATION_HINT_I18N_MAP hint = none := by
      simp [hintMapLookup, DATA_MIGRATION_HINT_I18N_MAP, List.find?,
        show DATA_MIGRATION_HINT_RELOGIN ≠ hint from fun hcon => h1 hcon.symm,
        show DATA_MIGRATION_HINT_CLEAR_DATA ≠ hint from fun hcon => h2 hcon.symm]
    simp [h0, hl]

theorem getLocalized_keychain_eval (t : String → String) (hint : String) (hh : '|' ∉ hint.data) :
    getLocalizedErrorMessage t (KEYCHAIN_ERROR_CODE ++ "|" ++ hint)
      = resolveKeychainMessage (some hint) t := by
  unfold getLocalizedErrorMessage
  rw [jsSplit_code_hint KEYCHAIN_ERROR_CODE hint (by decide) hh]
  simp

theorem getLocalized_migration_eval (t : String → String) (hint : String) (hh : '|' ∉ hint.data) :
    getLocalizedErrorMessage t (DATA_MIGRATION_ERROR_CODE ++ "|" ++ hint)
      = resolveDataMigrationMessage (some hint) t := by
  unfold getLocalizedErrorMessage
  rw [jsSplit_code_hint DATA_MIGRATION_ERROR_CODE hint (by decide) hh]
  simp [show DATA_MIGRATION_ERROR_CODE ≠ KEYCHAIN_ERROR_CODE from by decide,
    KEYCHAIN_ERROR_CODE, DATA_MIGRATION_ERROR_CODE]

/-- Claim C9: for `CODE|HINT` messages with `CODE` one of the two error
codes, the localized base message is returned, extended by the
localization of *that* hint — the `t`-image of the i18n key that the
code's hint map assigns to `HINT` — exactly when `HINT` is one of that
code's recognized hint codes; any message whose leading segment before
the bar is neither code is returned verbatim. -/
theorem getLocalizedErrorMessage_spec (t : String → String) :
    (∀ hint : String, '|' ∉ hint.data →
      ((hint ∈ [KEYCHAIN_HINT_TRANSLOCATION, KEYCHAIN_HINT_KEYCHAIN_DENIED,
            KEYCHAIN_HINT_SIGN_NOTARIZE] →
          ∃ k, hintMapLookup KEYCHAIN_HINT_I18N_MAP hint = some k
            ∧ getLocalizedErrorMessage t (KEYCHAIN_ERROR_CODE ++ "|" ++ hint)
              = t "error.keychainUnavailable" ++ " " ++ t k)
        ∧ (hint ∉ [KEYCHAIN_HINT_TRANSLOCATION, KEYCHAIN_HINT_KEYCHAIN_DENIED,
            KEYCHAIN_HINT_SIGN_NOTARIZE] →
          getLocalizedErrorMessage t (KEYCHAIN_ERROR_CODE ++ "|" ++ hint)
            = t "error.keychainUnavailable")
        ∧ (hint ∈ [DATA_MIGRATION_HINT_RELOGIN, DATA_MIGRATION_HINT_CLEAR_DATA] →
          ∃ k, hintMapLookup DATA_MIGRATION_HINT_I18N_MAP hint = some k
            ∧ getLocalizedErrorMessage t (DATA_MIGRATION_ERROR_CODE ++ "|" ++ hint)
              = t "error.dataMigrationFailed" ++ " " ++ t k)
        ∧ (hint ∉ [DATA_MIGRATION_HINT_RELOGIN, DATA_MIGRATION_HINT_CLEAR_DATA] →
          getLocalizedErrorMessage t (DATA_MIGRATION_ERROR_CODE ++ "|" ++ hint)
            = t "error.dataMigrationFailed")))
    ∧ (∀ msg : String,
        (jsSplit '|' msg).headD "" ≠ KEYCHAIN_ERROR_CODE →
        (jsSplit '|' msg).headD "" ≠ DATA_MIGRATION_ERROR_CODE →
        getLocalizedErrorMessage t msg = msg) := by
  constructor
  · intro hint hh
    refine ⟨?_, ?_, ?_, ?_⟩
    · intro hmem
      rw [getLocalized_keychain_eval t hint hh]
      simp only [List.mem_cons, List.not_mem_nil, or_false] at hmem
      rcases hmem with h | h | h
      · subst h
        refine ⟨"error.keychainHint.translocation", by decide, by
          simp [resolveKeychainMessage, hintMapLookup, KEYCHAIN_HINT_I18N_MAP, List.find?,
            KEYCHAIN_HINT_TRANSLOCATION]⟩
      · subst h
        refine ⟨"error.keychainHint.keychainDenied", by decide, by
          simp [resolveKeychainMessage, hintMapLookup, KEYCHAIN_HINT_I18N_MAP, List.find?,
            KEYCHAIN_HINT_TRANSLOCATION, KEYCHAIN_HINT_KEYCHAIN_DENIED]⟩
      · subst h
        refine ⟨"error.keychainHint.signNotarize", by decide, by
          simp [resolveKeychainMessage, hintMapLookup, KEYCHAIN_HINT_I18N_MAP, List.find?,
            KEYCHAIN_HINT_TRANSLOCATION, KEYCHAIN_HINT_KEYCHAIN_DENIED,
            KEYCHAIN_HINT_SIGN_NOTARIZE]⟩
    · intro hnot
      rw [getLocalized_keychain_eval t hint hh]
      refine resolveKeychain_unknown t hint ?_ ?_ ?_ <;>
        (intro hcon; exact hnot (by simp [hcon]))
    · intro hmem
      rw [getLocalized_migration_eval t hint hh]
      simp only [List.mem_cons, List.not_mem_nil, or_false] at hmem
      rcases hmem with h | h
      · subst h
        refine ⟨"error.dataMigrationHint.relogin", by decide, by
          simp [resolveDataMigrationMessage, hintMapLookup, DATA_MIGRATION_HINT_I18N_MAP,
            List.find?, DATA_MIGRATION_HINT_RELOGIN]⟩
      · subst h
        refine ⟨"error.dataMigrationHint.clearData", by decide, by
          simp [resolveDataMigrationMessage, hintMapLookup, DATA_MIGRATION_HINT_I18N_MAP,
            List.find?, DATA_MIGRATION_HINT_RELOGIN, DATA_MIGRATION_HINT_CLEAR_DATA]⟩
    · intro hnot
      rw [getLocalized_migration_eval t hint hh]
      refine resolveDataMigration_unknown t hint ?_ ?_ <;>
        (intro hcon; exact hnot (by simp [hcon]))
  · intro msg h1 h2
    simp only [getLocalizedErrorMessage]
    rw [if_neg h1, if_neg h2]



/-- Claim C2: with thinking enabled, the transformed request has no
`generationConfig.thinkingConfig` when the request declares at least one
tool and the Signature Store holds no valid signature; otherwise it has
`thinkingConfig` with `thinkingBudget = thinking.budget_tokens`.
(The transformer is modelled from the spec as its source is not part of
this repository snapshot.) -/
theorem transform_thinking_safety (store : List String) (req : ClaudeRequest) (pid : String)
    (th : ThinkingParam) (hth : req.thinking = some th) (he : th.ttype = "enabled") :
    ((0 < req.tools.length ∧ hasValidSignature store = false) →
      (transformClaudeRequestIn store req pid).generationConfig.thinkingConfig = none)
    ∧ (¬(0 < req.tools.length ∧ hasValidSignature store = false) →
      (transformClaudeRequestIn store req pid).generationConfig.thinkingConfig
        = some ⟨th.budget_tokens⟩) := by
  simp only [transformClaudeRequestIn, hth, he]
  constructor
  · rintro ⟨h1, h2⟩
    simp [h1, h2]
  · intro hnot
    by_cases h1 : 0 < req.tools.length
    · have h2 : hasValidSignature store = true := by
        cases hv : hasValidSignature store with
        | true => rfl
        | false => exact absurd ⟨h1, hv⟩ hnot
      simp [h1, h2]
    · simp [h1]

theorem transform_thinking_safety_wit :
    (({ model := "gemini-3-pro-preview", system := none, tools := ["get_weather"],
        thinking := some ⟨"enabled", 1000⟩, max_tokens := 100 } : ClaudeRequest).thinking
      = some ⟨"enabled", 1000⟩)
    ∧ (0 < (["get_weather"] : List String).length ∧ hasValidSignature [] = false)
    ∧ (transformClaudeRequestIn []
        { model := "gemini-3-pro-preview", system := none, tools := ["get_weather"],
          thinking := some ⟨"enabled", 1000⟩, max_tokens := 100 }
        "test-project").generationConfig.thinkingConfig = none :=
  ⟨rfl, ⟨by decide, rfl⟩,
    (transform_thinking_safety []
      { model := "gemini-3-pro-preview", system := none, tools := ["get_weather"],
        thinking := some ⟨"enabled", 1000⟩, max_tokens := 100 }
      "test-project" ⟨"enabled", 1000⟩ rfl rfl).1 ⟨by decide, rfl⟩⟩

/-- Claim C1, counterexample: a caught value that is not an axios error is
not an HTTP response error, yet `shouldSwitchEndpointOnError` classifies it
as terminal (`false`), while the claim's table (`claimSwitchRule`) says the
next endpoint is tried (`true`). -/
theorem shouldSwitch_nonHttp_cex :
    shouldSwitchEndpointOnError (.nonAxios "boom") = false ∧
    isHttpResponseError (.nonAxios "boom") = false ∧
    claimSwitchRule (.nonAxios "boom") = true :=
  ⟨rfl, rfl, rfl⟩

/-- Claim C1, amended: a non-axios-shaped error is terminal; an axios
error without an HTTP response (network, DNS, timeout) causes the next
endpoint to be tried; HTTP 401/403 are terminal; 408, 429 and any status
>= 500 cause the next endpoint to be tried; any other status is
terminal. -/
theorem shouldSwitch_amended (e : UpstreamError) :
    (isAxiosShaped e = false → shouldSwitchEndpointOnError e = false)
    ∧ (isAxiosShaped e = true → isHttpResponseError e = false →
        shouldSwitchEndpointOnError e = true)
    ∧ (∀ s, httpStatusOf e = some s →
        shouldSwitchEndpointOnError e
          = (if s = 401 ∨ s = 403 then false
             else decide (s = 408 ∨ s = 429 ∨ 500 ≤ s))) := by
  cases e with
  | nonAxios msg =>
    refine ⟨fun _ => rfl, fun h _ => ?_, fun s hs => ?_⟩
    · exact absurd h (by simp [isAxiosShaped])
    · exact absurd hs (by simp [httpStatusOf])
  | axios msg resp =>
    cases resp with
    | none =>
      refine ⟨fun h => ?_, fun _ _ => rfl, fun s hs => ?_⟩
      · exact absurd h (by simp [isAxiosShaped])
      · exact absurd hs (by simp [httpStatusOf])
    | some r =>
      refine ⟨fun h => ?_, fun _ h2 => ?_, fun s hs => ?_⟩
      · exact absurd h (by simp [isAxiosShaped])
      · exact absurd h2 (by simp [isHttpResponseError])
      · have hr : s = r.status := by
          simpa [httpStatusOf] using hs.symm
        subst hr
        rfl

theorem shouldSwitch_amended_wit :
    httpStatusOf (.axios "unavailable" (some ⟨503, RespData.undef⟩)) = some 503 ∧
    shouldSwitchEndpointOnError (.axios "unavailable" (some ⟨503, RespData.undef⟩))
      = (if (503 : ℕ) = 401 ∨ (503 : ℕ) = 403 then false
         else decide ((503 : ℕ) = 408 ∨ (503 : ℕ) = 429 ∨ 500 ≤ (503 : ℕ))) :=
  ⟨rfl, (shouldSwitch_amended (.axios "unavailable" (some ⟨503, RespData.undef⟩))).2.2 503 rfl⟩



theorem handleAxiosError_isSome (oe : Option UpstreamError) :
    ∃ s, handleAxiosError oe = some s := by
  cases oe with
  | none => exact ⟨_, rfl⟩
  | some e => cases e with
    | axios msg resp => exact ⟨_, rfl⟩
    | nonAxios msg => exact ⟨_, rfl⟩

theorem failover_count_le {α : Type} (le : Option UpstreamError) (attempts : List (Attempt α)) :
    (requestWithEndpointFailover le attempts).1 ≤ attempts.length := by
  induction attempts generalizing le with
  | nil =>
    obtain ⟨s, hs⟩ := handleAxiosError_isSome le
    simp [requestWithEndpointFailover, hs]
  | cons a rest ih =>
    cases a with
    | success r => simp [requestWithEndpointFailover]
    | failure e =>
      cases hc : (rest.isEmpty || !shouldSwitchEndpointOnError e) with
      | true =>
        obtain ⟨s, hs⟩ := handleAxiosError_isSome (some e)
        simp [requestWithEndpointFailover, hc, hs]
      | false =>
        simp only [requestWithEndpointFailover, hc]
        exact Nat.succ_le_succ (ih (some e))

theorem failover_terminal_stops {α : Type} (le : Option UpstreamError)
    (pre : List (Attempt α)) (e : UpstreamError) (rest : List (Attempt α))
    (hpre : ∀ a ∈ pre, ∃ e', a = Attempt.failure e' ∧ shouldSwitchEndpointOnError e' = true)
    (hterm : shouldSwitchEndpointOnError e = false) :
    (requestWithEndpointFailover le (pre ++ Attempt.failure e :: rest)).1 = pre.length + 1 := by
  induction pre generalizing le with
  | nil =>
    obtain ⟨s, hs⟩ := handleAxiosError_isSome (some e)
    simp [requestWithEndpointFailover, hterm, hs]
  | cons a pre' ih =>
    obtain ⟨e', ha, hsw⟩ := hpre a (List.mem_cons_self a pre')
    subst ha
    have hne : (pre' ++ Attempt.failure e :: rest).isEmpty = false := by
      cases pre' <;> rfl
    have hloop := ih (some e') (fun a ha => hpre a (List.mem_cons_of_mem _ ha))
    simp [requestWithEndpointFailover, hne, hsw, hloop, List.append_eq]



/-- Claim C4: a single dispatcher call issues at most one POST per
configured base URL, and when a terminal (non-retryable) error is hit
after a prefix of retryable failures, exactly `prefix + 1` POSTs were
issued — none to the remaining endpoints. -/
theorem failover_post_bound {α : Type} (attempts : List (Attempt α)) :
    (requestWithEndpointFailover none attempts).1 ≤ attempts.length
    ∧ ∀ pre e rest, attempts = pre ++ Attempt.failure e :: rest →
        (∀ a ∈ pre, ∃ e', a = Attempt.failure e' ∧ shouldSwitchEndpointOnError e' = true) →
        shouldSwitchEndpointOnError e = false →
        (requestWithEndpointFailover none attempts).1 = pre.length + 1 := by
  refine ⟨failover_count_le none attempts, ?_⟩
  intro pre e rest hsplit hpre hterm
  rw [hsplit]
  exact failover_terminal_stops none pre e rest hpre hterm

theorem failover_post_bound_wit :
    ([Attempt.failure (.axios "unavailable" (some ⟨500, RespData.undef⟩)),
      Attempt.failure (.axios "forbidden" (some ⟨403, RespData.undef⟩)),
      Attempt.success (7 : ℕ)]
      = [Attempt.failure (.axios "unavailable" (some ⟨500, RespData.undef⟩))]
        ++ Attempt.failure (.axios "forbidden" (some ⟨403, RespData.undef⟩))
          :: [Attempt.success (7 : ℕ)])
    ∧ shouldSwitchEndpointOnError (.axios "forbidden" (some ⟨403, RespData.undef⟩)) = false
    ∧ (requestWithEndpointFailover none
        [Attempt.failure (.axios "unavailable" (some ⟨500, RespData.undef⟩)),
         Attempt.failure (.axios "forbidden" (some ⟨403, RespData.undef⟩)),
         Attempt.success (7 : ℕ)]).1 = 2 :=
  ⟨rfl, rfl,
    (failover_post_bound _).2
      [Attempt.failure (.axios "unavailable" (some ⟨500, RespData.undef⟩))]
      (.axios "forbidden" (some ⟨403, RespData.undef⟩))
      [Attempt.success (7 : ℕ)]
      rfl
      (fun a ha => by
        simp only [List.mem_singleton] at ha
        exact ⟨.axios "unavailable" (some ⟨500, RespData.undef⟩), ha, rfl⟩)
      rfl⟩

theorem failover_outcome_cases {α : Type} (le : Option UpstreamError)
    (attempts : List (Attempt α)) :
    (∃ r, (requestWithEndpointFailover le attempts).2 = FailoverOutcome.ok r
        ∧ firstSuccess attempts = some r)
    ∨ (∃ s, (requestWithEndpointFailover le attempts).2 = FailoverOutcome.thrown s) := by
  induction attempts generalizing le with
  | nil =>
    right
    obtain ⟨s, hs⟩ := handleAxiosError_isSome le
    exact ⟨s, by simp [requestWithEndpointFailover, hs]⟩
  | cons a rest ih =>
    cases a with
    | success r =>
      left
      exact ⟨r, rfl, rfl⟩
    | failure e =>
      cases hc : (rest.isEmpty || !shouldSwitchEndpointOnError e) with
      | true =>
        right
        obtain ⟨s, hs⟩ := handleAxiosError_isSome (some e)
        exact ⟨s, by simp [requestWithEndpointFailover, hc, hs]⟩
      | false =>
        have := ih (some e)
        rcases this with ⟨r, hok, hfs⟩ | ⟨s, hth⟩
        · left
          refine ⟨r, ?_, hfs⟩
          simp [requestWithEndpointFailover, hc, hok]
        · right
          refine ⟨s, ?_⟩
          simp [requestWithEndpointFailover, hc, hth]

/-- Claim C10: on a non-empty base-URL list the dispatcher either returns
the response of the first successful POST or throws an error produced by
`handleAxiosError`/`throwAsCleanError`; the trailing `unexpected control
flow` throw after the loop is unreachable, since `handleAxiosError` always
throws (see `handleAxiosError_isSome`). -/
theorem failover_outcome_total {α : Type} (attempts : List (Attempt α))
    (hne : attempts ≠ []) :
    ((∃ r, (requestWithEndpointFailover none attempts).2 = FailoverOutcome.ok r
        ∧ firstSuccess attempts = some r)
      ∨ (∃ s, (requestWithEndpointFailover none attempts).2 = FailoverOutcome.thrown s))
    ∧ (requestWithEndpointFailover none attempts).2 ≠ FailoverOutcome.unreachableThrow := by
  refine ⟨failover_outcome_cases none attempts, ?_⟩
  rcases failover_outcome_cases none attempts with ⟨r, hok, _⟩ | ⟨s, hth⟩
  · rw [hok]
    intro hcon
    cases hcon
  · rw [hth]
    intro hcon
    cases hcon

theorem failover_outcome_total_wit :
    (([Attempt.failure (.axios "boom" none), Attempt.success (5 : ℕ)] : List (Attempt ℕ)) ≠ [])
    ∧ (((∃ r, (requestWithEndpointFailover none
          [Attempt.failure (.axios "boom" none), Attempt.success (5 : ℕ)]).2
            = FailoverOutcome.ok r
          ∧ firstSuccess [Attempt.failure (.axios "boom" none), Attempt.success (5 : ℕ)]
            = some r)
        ∨ (∃ s, (requestWithEndpointFailover none
          [Attempt.failure (.axios "boom" none), Attempt.success (5 : ℕ)]).2
            = FailoverOutcome.thrown s))
      ∧ (requestWithEndpointFailover none
          [Attempt.failure (.axios "boom" none), Attempt.success (5 : ℕ)]).2
          ≠ FailoverOutcome.unreachableThrow) :=
  ⟨List.cons_ne_nil _ _,
    failover_outcome_total [Attempt.failure (.axios "boom" none), Attempt.success (5 : ℕ)]
      (List.cons_ne_nil _ _)⟩



theorem getLocalizedErrorMessage_spec_wit :
    ('|' ∉ "HINT_KEYCHAIN_DENIED".data)
    ∧ ("HINT_KEYCHAIN_DENIED" ∈ [KEYCHAIN_HINT_TRANSLOCATION, KEYCHAIN_HINT_KEYCHAIN_DENIED,
        KEYCHAIN_HINT_SIGN_NOTARIZE])
    ∧ (∃ k, hintMapLookup KEYCHAIN_HINT_I18N_MAP "HINT_KEYCHAIN_DENIED" = some k
        ∧ getLocalizedErrorMessage (fun s => s)
            (KEYCHAIN_ERROR_CODE ++ "|" ++ "HINT_KEYCHAIN_DENIED")
          = "error.keychainUnavailable" ++ " " ++ k)
    ∧ getLocalizedErrorMessage (fun s => s) "SOMETHING|ELSE" = "SOMETHING|ELSE" :=
  ⟨by decide, by decide,
    ((getLocalizedErrorMessage_spec (fun s => s)).1 "HINT_KEYCHAIN_DENIED" (by decide)).1
      (by decide),
    (getLocalizedErrorMessage_spec (fun s => s)).2 "SOMETHING|ELSE" (by decide) (by decide)⟩

/-! ## Claim C3: the extraction-order equivalence -/

theorem dScan_append (u v : List Char) : ∀ b,
    dScan b (u ++ v) = (dScan b u).bind (fun b2 => dScan b2 v) := by
  induction u with
  | nil => intro b; simp [dScan]
  | cons c u ih =>
    intro b
    simp only [List.cons_append, dScan]
    split_ifs <;> simp [ih]

theorem safeChunk_append {u v : List Char} (hu : safeChunk u) (hv : safeChunk v) :
    safeChunk (u ++ v) := by
  intro b
  rw [dScan_append]
  cases h : dScan b u with
  | none =>
    have := hu b
    rw [h] at this
    cases this
  | some b2 => simp [Option.bind, hv b2]

theorem safeChunk_nil : safeChunk [] := by
  intro b; rfl

theorem dScan_noNl (u : List Char) (h : '\n' ∉ u) : dScan true u = some true := by
  induction u with
  | nil => rfl
  | cons c u ih =>
    have hc : c ≠ '\n' := fun hcon => h (hcon ▸ List.mem_cons_self c u)
    have hu : '\n' ∉ u := fun hm => h (List.mem_cons_of_mem _ hm)
    simp only [dScan, if_neg hc]
    by_cases hw : isJsWsChar c = true
    · simp [hw, ih hu]
    · simp [hw, ih hu]

theorem safeChunk_token {c : Char} {u : List Char} (hc : c ≠ '\n')
    (hw : isJsWsChar c = false) (hd : c ≠ 'd') (hu : '\n' ∉ u) :
    safeChunk (c :: u) := by
  intro b
  simp only [dScan, if_neg hc, hw]
  have hcond : ¬(c = 'd' ∧ b = false) := fun hcon => hd hcon.1
  simp [hcond, dScan_noNl u hu]

theorem safeChunk_ws (u : List Char) (h : ∀ c ∈ u, isJsWsChar c = true) :
    safeChunk u := by
  induction u with
  | nil => exact safeChunk_nil
  | cons c u ih =>
    intro b
    have hcw := h c (List.mem_cons_self c u)
    have hu : ∀ x ∈ u, isJsWsChar x = true := fun x hx => h x (List.mem_cons_of_mem _ hx)
    simp only [dScan]
    by_cases hn : c = '\n'
    · simp [hn, ih hu false]
    · simp [hn, hcw, ih hu b]



theorem chunk_trans {cs cs1 rest : List Char}
    (h1 : ∃ u, cs = u ++ cs1 ∧ safeChunk u)
    (h2 : ∃ v, cs1 = v ++ rest ∧ safeChunk v) :
    ∃ w, cs = w ++ rest ∧ safeChunk w := by
  obtain ⟨u, hu, su⟩ := h1
  obtain ⟨v, hv, sv⟩ := h2
  exact ⟨u ++ v, by rw [hu, hv, List.append_assoc], safeChunk_append su sv⟩

theorem chunk_refl (cs : List Char) : ∃ u, cs = u ++ cs ∧ safeChunk u :=
  ⟨[], rfl, safeChunk_nil⟩

theorem jsonWs_isJsWs {c : Char} (h : isJsonWsChar c = true) : isJsWsChar c = true := by
  simp only [isJsonWsChar, Bool.or_eq_true, decide_eq_true_eq] at h
  rcases h with ((rfl | rfl) | rfl) | rfl <;> rfl

theorem skipWs_chunk (cs : List Char) : ∃ u, cs = u ++ skipWs cs ∧ safeChunk u := by
  refine ⟨cs.takeWhile isJsonWsChar, ?_, ?_⟩
  · exact (List.takeWhile_append_dropWhile isJsonWsChar cs).symm
  · exact safeChunk_ws _ (fun c hc => jsonWs_isJsWs (List.mem_takeWhile_imp hc))

theorem escapeChar_ne_nl {e d : Char} (h : escapeChar e = some d) : e ≠ '\n' := by
  intro hcon
  rw [hcon] at h
  have : escapeChar '\n' = none := rfl
  rw [this] at h
  cases h

theorem hexDigit_ne_nl {c : Char} (h : isHexDigitChar c = true) : c ≠ '\n' := by
  intro hcon
  rw [hcon] at h
  have : isHexDigitChar '\n' = false := rfl
  rw [this] at h
  cases h

theorem parseStringBody_chunk : ∀ cs content rest,
    parseStringBody cs = some (content, rest) → ∃ u, cs = u ++ rest ∧ '\n' ∉ u := by
  intro cs
  induction cs using parseStringBody.induct with
  | case1 =>
    intro content rest h
    rw [parseStringBody.eq_def] at h
    cases h
  | case2 cs =>
    intro content rest h
    rw [parseStringBody.eq_def] at h
    simp only [if_pos rfl] at h
    obtain ⟨hcon, hrest⟩ := Prod.mk.injEq .. ▸ Option.some.inj h
    subst hrest
    exact ⟨['"'], rfl, by simp⟩
  | case3 hne =>
    intro content rest h
    rw [parseStringBody.eq_def] at h
    simp at h
  | case4 h1 h2 h3 h4 cs2 hhex content0 rest0 hp hne ih =>
    intro content rest h
    rw [parseStringBody.eq_def] at h
    simp only [hhex, hp, if_neg (show ¬('\\' = '"') by decide), if_pos rfl] at h
    obtain ⟨hcon, hrest⟩ := Prod.mk.injEq .. ▸ Option.some.inj h
    subst hrest
    obtain ⟨u, hu, hnl⟩ := ih content0 rest0 hp
    refine ⟨'\\' :: 'u' :: h1 :: h2 :: h3 :: h4 :: u, by rw [hu]; rfl, ?_⟩
    have hx : isHexDigitChar h1 = true ∧ isHexDigitChar h2 = true
        ∧ isHexDigitChar h3 = true ∧ isHexDigitChar h4 = true := by
      simp only [Bool.and_eq_true] at hhex
      exact ⟨hhex.1.1.1, hhex.1.1.2, hhex.1.2, hhex.2⟩
    intro hm
    simp only [List.mem_cons] at hm
    rcases hm with hm | hm | hm | hm | hm | hm | hm
    · exact absurd hm (by decide)
    · exact absurd hm (by decide)
    · exact hexDigit_ne_nl hx.1 hm.symm
    · exact hexDigit_ne_nl hx.2.1 hm.symm
    · exact hexDigit_ne_nl hx.2.2.1 hm.symm
    · exact hexDigit_ne_nl hx.2.2.2 hm.symm
    · exact hnl hm
  | case5 h1 h2 h3 h4 cs2 hhex hp hne ih =>
    intro content rest h
    rw [parseStringBody.eq_def] at h
    simp [hhex, hp] at h
  | case6 h1 h2 h3 h4 cs2 hhex hne =>
    intro content rest h
    rw [parseStringBody.eq_def] at h
    simp [hhex] at h
  | case7 cs hnomatch hne =>
    intro content rest h
    rw [parseStringBody.eq_def] at h
    simp only [if_neg (show ¬('\\' = '"') by decide), if_pos rfl] at h
    cases cs with
    | nil => cases h
    | cons a cs' =>
      cases cs' with
      | nil => cases h
      | cons b cs'' =>
        cases cs'' with
        | nil => cases h
        | cons c3 cs3 =>
          cases cs3 with
          | nil => cases h
          | cons c4 cs4 => exact absurd rfl (fun hcon => hnomatch a b c3 c4 cs4 hcon)
  | case8 c cs hcu d hesc content0 rest0 hp hne ih =>
    intro content rest h
    rw [parseStringBody.eq_def] at h
    simp only [if_neg (show ¬('\\' = '"') by decide), if_neg hcu, hesc, hp] at h
    obtain ⟨hcon, hrest⟩ := Prod.mk.injEq .. ▸ Option.some.inj h
    subst hrest
    obtain ⟨u, hu, hnl⟩ := ih content0 rest0 hp
    refine ⟨'\\' :: c :: u, by rw [hu]; rfl, ?_⟩
    intro hm
    simp only [List.mem_cons] at hm
    rcases hm with hm | hm | hm
    · exact absurd hm (by decide)
    · exact escapeChar_ne_nl hesc hm.symm
    · exact hnl hm
  | case9 c cs hcu d hesc hp hne ih =>
    intro content rest h
    rw [parseStringBody.eq_def] at h
    simp [hcu, hesc, hp] at h
  | case10 c cs hcu hesc hne =>
    intro content rest h
    rw [parseStringBody.eq_def] at h
    simp [hcu, hesc] at h
  | case11 c cs hq hb h32 =>
    intro content rest h
    rw [parseStringBody.eq_def] at h
    simp [hq, hb, h32] at h
  | case12 c cs hq hb h32 content0 rest0 hp ih =>
    intro content rest h
    rw [parseStringBody.eq_def] at h
    simp only [if_neg hq, if_neg hb, if_neg h32, hp] at h
    obtain ⟨hcon, hrest⟩ := Prod.mk.injEq .. ▸ Option.some.inj h
    subst hrest
    obtain ⟨u, hu, hnl⟩ := ih content0 rest0 hp
    refine ⟨c :: u, by rw [hu]; rfl, ?_⟩
    intro hm
    simp only [List.mem_cons] at hm
    rcases hm with hm | hm
    · subst hm
      exact h32 (by decide)
    · exact hnl hm
  | case13 c cs hq hb h32 hp ih =>
    intro content rest h
    rw [parseStringBody.eq_def] at h
    simp [hq, hb, h32, hp] at h



theorem numChar_guard {c : Char} (h : (c = '-' || c.isDigit) = true) : isNumChar c = true := by
  simp only [Bool.or_eq_true, decide_eq_true_eq] at h
  rcases h with rfl | hd
  · rfl
  · simp [isNumChar, hd]

theorem numChar_not_ws {c : Char} (h : isNumChar c = true) : isJsWsChar c = false := by
  cases hw : isJsWsChar c with
  | false => rfl
  | true =>
    exfalso
    simp only [isJsWsChar, Bool.or_eq_true, decide_eq_true_eq] at hw
    rcases hw with ((((rfl | rfl) | rfl) | rfl) | rfl) | rfl <;> exact absurd h (by decide)

theorem numChar_ne_d {c : Char} (h : isNumChar c = true) : c ≠ 'd' := by
  intro hcon
  rw [hcon] at h
  exact absurd h (by decide)

theorem numChar_ne_nl {c : Char} (h : isNumChar c = true) : c ≠ '\n' := by
  intro hcon
  rw [hcon] at h
  exact absurd h (by decide)

theorem parseNumberToken_chunk {cs tok rest : List Char}
    (h : parseNumberToken cs = some (tok, rest)) :
    cs = tok ++ rest ∧ (∀ x ∈ tok, isNumChar x = true) ∧ tok ≠ [] := by
  unfold parseNumberToken at h
  by_cases he : (cs.takeWhile isNumChar).isEmpty
  · simp [he] at h
  · simp only [he, if_neg] at h
    obtain ⟨h1, h2⟩ := Prod.mk.injEq .. ▸ Option.some.inj h
    subst h1
    subst h2
    refine ⟨(List.takeWhile_append_dropWhile isNumChar cs).symm,
      fun x hx => List.mem_takeWhile_imp hx, ?_⟩
    intro hcon
    rw [hcon] at he
    exact he rfl

theorem stripWordChars_chunk : ∀ p cs rest, stripWordChars p cs = some rest → cs = p ++ rest := by
  intro p
  induction p with
  | nil =>
    intro cs rest h
    have := Option.some.inj h
    rw [this]
    rfl
  | cons a p ih =>
    intro cs rest h
    cases cs with
    | nil => cases h
    | cons c cs' =>
      by_cases hca : c = a
      · subst hca
        rw [stripWordChars.eq_def] at h
        simp only [if_pos rfl] at h
        have := ih cs' rest h
        rw [List.cons_append, this]
      · rw [stripWordChars.eq_def] at h
        simp [hca] at h



theorem safeChunk_single {c : Char} (hc : c ≠ '\n') (hw : isJsWsChar c = false)
    (hd : c ≠ 'd') : safeChunk [c] :=
  safeChunk_token hc hw hd (by simp)

/-- The consumed prefix of every parser-function success is a safe chunk. -/
theorem parse_safe : ∀ f : Nat,
    (∀ cs j rest, parseValue f cs = some (j, rest) → ∃ u, cs = u ++ rest ∧ safeChunk u)
    ∧ (∀ acc cs j rest, parseMembers f acc cs = some (j, rest) →
        ∃ u, cs = u ++ rest ∧ safeChunk u)
    ∧ (∀ acc cs j rest, parseElems f acc cs = some (j, rest) →
        ∃ u, cs = u ++ rest ∧ safeChunk u) := by
  intro f
  induction f with
  | zero =>
    refine ⟨?_, ?_, ?_⟩
    · intro cs j rest h
      rw [parseValue.eq_def] at h
      cases h
    · intro acc cs j rest h
      rw [parseMembers.eq_def] at h
      cases h
    · intro acc cs j rest h
      rw [parseElems.eq_def] at h
      cases h
  | succ f ih =>
    obtain ⟨ihv, ihm, ihe⟩ := ih
    refine ⟨?_, ?_, ?_⟩
    · -- parseValue (f+1)
      intro cs j rest h
      rw [parseValue.eq_def] at h
      cases cs with
      | nil => cases h
      | cons c rest0 =>
        simp only [] at h
        by_cases hq : c = '"'
        · subst hq
          simp only [if_pos rfl] at h
          cases hps : parseStringBody rest0 with
          | none => rw [hps] at h; cases h
          | some pr =>
            rw [hps] at h
            obtain ⟨content, r⟩ := pr
            simp only [] at h
            obtain ⟨hj, hrest⟩ := Prod.mk.injEq .. ▸ Option.some.inj h
            subst hrest
            obtain ⟨u, hu, hnl⟩ := parseStringBody_chunk rest0 content r hps
            refine ⟨'"' :: u, by rw [hu]; rfl, ?_⟩
            exact safeChunk_token (by decide) (by decide) (by decide) hnl
        · simp only [if_neg hq] at h
          by_cases hob : c = '{'
          · subst hob
            simp only [if_pos rfl] at h
            cases hsw : skipWs rest0 with
            | nil => rw [hsw] at h; cases h
            | cons d r2 =>
              rw [hsw] at h
              simp only [] at h
              by_cases hd : d = '}'
              · subst hd
                simp only [if_pos rfl] at h
                obtain ⟨hj, hrest⟩ := Prod.mk.injEq .. ▸ Option.some.inj h
                subst hrest
                refine chunk_trans ⟨['{'], rfl, safeChunk_single (by decide) (by decide) (by decide)⟩
                  (chunk_trans (skipWs_chunk rest0) ?_)
                rw [hsw]
                exact ⟨['}'], rfl, safeChunk_single (by decide) (by decide) (by decide)⟩
              · simp only [if_neg hd] at h
                rw [← hsw] at h
                obtain ⟨u, hu, hs⟩ := ihm [] (skipWs rest0) j rest h
                exact chunk_trans ⟨['{'], rfl, safeChunk_single (by decide) (by decide) (by decide)⟩
                  (chunk_trans (skipWs_chunk rest0) ⟨u, hu, hs⟩)
          · simp only [if_neg hob] at h
            by_cases hab : c = '['
            · subst hab
              simp only [if_pos rfl] at h
              cases hsw : skipWs rest0 with
              | nil => rw [hsw] at h; cases h
              | cons d r2 =>
                rw [hsw] at h
                simp only [] at h
                by_cases hd : d = ']'
                · subst hd
                  simp only [if_pos rfl] at h
                  obtain ⟨hj, hrest⟩ := Prod.mk.injEq .. ▸ Option.some.inj h
                  subst hrest
                  refine chunk_trans ⟨['['], rfl, safeChunk_single (by decide) (by decide) (by decide)⟩
                    (chunk_trans (skipWs_chunk rest0) ?_)
                  rw [hsw]
                  exact ⟨[']'], rfl, safeChunk_single (by decide) (by decide) (by decide)⟩
                · simp only [if_neg hd] at h
                  rw [← hsw] at h
                  obtain ⟨u, hu, hs⟩ := ihe [] (skipWs rest0) j rest h
                  exact chunk_trans ⟨['['], rfl, safeChunk_single (by decide) (by decide) (by decide)⟩
                    (chunk_trans (skipWs_chunk rest0) ⟨u, hu, hs⟩)
            · simp only [if_neg hab] at h
              by_cases ht : c = 't'
              · subst ht
                simp only [if_pos rfl] at h
                cases hsc : stripWordChars ['r', 'u', 'e'] rest0 with
                | none => rw [hsc] at h; cases h
                | some r =>
                  rw [hsc] at h
                  simp only [] at h
                  obtain ⟨hj, hrest⟩ := Prod.mk.injEq .. ▸ Option.some.inj h
                  subst hrest
                  have hch := stripWordChars_chunk ['r', 'u', 'e'] rest0 r hsc
                  refine ⟨'t' :: 'r' :: 'u' :: 'e' :: [], by rw [hch]; rfl, ?_⟩
                  exact safeChunk_token (by decide) (by decide) (by decide) (by decide)
              · simp only [if_neg ht] at h
                by_cases hf : c = 'f'
                · subst hf
                  simp only [if_pos rfl] at h
                  cases hsc : stripWordChars ['a', 'l', 's', 'e'] rest0 with
                  | none => rw [hsc] at h; cases h
                  | some r =>
                    rw [hsc] at h
                    simp only [] at h
                    obtain ⟨hj, hrest⟩ := Prod.mk.injEq .. ▸ Option.some.inj h
                    subst hrest
                    have hch := stripWordChars_chunk ['a', 'l', 's', 'e'] rest0 r hsc
                    refine ⟨'f' :: 'a' :: 'l' :: 's' :: 'e' :: [], by rw [hch]; rfl, ?_⟩
                    exact safeChunk_token (by decide) (by decide) (by decide) (by decide)
                · simp only [if_neg hf] at h
                  by_cases hn : c = 'n'
                  · subst hn
                    simp only [if_pos rfl] at h
                    cases hsc : stripWordChars ['u', 'l', 'l'] rest0 with
                    | none => rw [hsc] at h; cases h
                    | some r =>
                      rw [hsc] at h
                      simp only [] at h
                      obtain ⟨hj, hrest⟩ := Prod.mk.injEq .. ▸ Option.some.inj h
                      subst hrest
                      have hch := stripWordChars_chunk ['u', 'l', 'l'] rest0 r hsc
                      refine ⟨'n' :: 'u' :: 'l' :: 'l' :: [], by rw [hch]; rfl, ?_⟩
                      exact safeChunk_token (by decide) (by decide) (by decide) (by decide)
                  · simp only [if_neg hn] at h
                    by_cases hnum : (c = '-' || c.isDigit) = true
                    · simp only [if_pos hnum] at h
                      cases hpn : parseNumberToken (c :: rest0) with
                      | none => rw [hpn] at h; cases h
                      | some pr =>
                        rw [hpn] at h
                        obtain ⟨tok, r⟩ := pr
                        simp only [] at h
                        obtain ⟨hj, hrest⟩ := Prod.mk.injEq .. ▸ Option.some.inj h
                        subst hrest
                        obtain ⟨hsplit, hall, hne2⟩ := parseNumberToken_chunk hpn
                        cases tok with
                        | nil => exact absurd rfl hne2
                        | cons t0 tok' =>
                          have ht0 : t0 = c := by
                            have := hsplit
                            rw [List.cons_append] at this
                            exact (List.cons.injEq .. ▸ this).1.symm
                          subst ht0
                          refine ⟨t0 :: tok', hsplit, ?_⟩
                          have hnc := hall t0 (List.mem_cons_self _ _)
                          refine safeChunk_token (numChar_ne_nl hnc) (numChar_not_ws hnc)
                            (numChar_ne_d hnc) ?_
                          intro hm
                          exact numChar_ne_nl (hall _ (List.mem_cons_of_mem _ hm)) rfl
                    · simp only [if_neg hnum] at h
                      cases h
    · -- parseMembers (f+1)
      intro acc cs j rest h
      rw [parseMembers.eq_def] at h
      cases cs with
      | nil => cases h
      | cons c rest0 =>
        simp only [] at h
        by_cases hq : c = '"'
        · subst hq
          simp only [if_pos rfl] at h
          cases hps : parseStringBody rest0 with
          | none => rw [hps] at h; cases h
          | some pr =>
            rw [hps] at h
            obtain ⟨keyChars, r1⟩ := pr
            simp only [] at h
            cases hsw1 : skipWs r1 with
            | nil => rw [hsw1] at h; cases h
            | cons colon r2 =>
              rw [hsw1] at h
              simp only [] at h
              by_cases hcolon : colon = ':'
              · subst hcolon
                simp only [if_pos rfl] at h
                cases hpv : parseValue f (skipWs r2) with
                | none => rw [hpv] at h; cases h
                | some pv =>
                  rw [hpv] at h
                  obtain ⟨v, r3⟩ := pv
                  simp only [] at h
                  cases hsw3 : skipWs r3 with
                  | nil => rw [hsw3] at h; cases h
                  | cons sep r4 =>
                    rw [hsw3] at h
                    simp only [] at h
                    have chunkToR2 : ∃ u, (('"' : Char) :: rest0) = u ++ r2 ∧ safeChunk u := by
                      obtain ⟨uK, huK, hnlK⟩ := parseStringBody_chunk rest0 keyChars r1 hps
                      refine chunk_trans
                        ⟨'"' :: uK, by rw [huK]; rfl,
                          safeChunk_token (by decide) (by decide) (by decide) hnlK⟩
                        (chunk_trans (skipWs_chunk r1) ?_)
                      rw [hsw1]
                      exact ⟨[':'], rfl, safeChunk_single (by decide) (by decide) (by decide)⟩
                    have chunkToR3 : ∃ u, (('"' : Char) :: rest0) = u ++ r3 ∧ safeChunk u := by
                      refine chunk_trans chunkToR2 (chunk_trans (skipWs_chunk r2) ?_)
                      exact ihv (skipWs r2) v r3 hpv
                    by_cases hsep : sep = ','
                    · subst hsep
                      simp only [if_pos rfl] at h
                      refine chunk_trans chunkToR3 (chunk_trans (skipWs_chunk r3) ?_)
                      refine chunk_trans ?_ (chunk_trans (skipWs_chunk r4) ?_)
                      · rw [hsw3]
                        exact ⟨[','], rfl, safeChunk_single (by decide) (by decide) (by decide)⟩
                      · exact ihm _ (skipWs r4) j rest h
                    · simp only [if_neg hsep] at h
                      by_cases hbr : sep = '}'
                      · subst hbr
                        simp only [if_pos rfl] at h
                        obtain ⟨hj, hrest⟩ := Prod.mk.injEq .. ▸ Option.some.inj h
                        subst hrest
                        refine chunk_trans chunkToR3 (chunk_trans (skipWs_chunk r3) ?_)
                        rw [hsw3]
                        exact ⟨['}'], rfl, safeChunk_single (by decide) (by decide) (by decide)⟩
                      · simp only [if_neg hbr] at h
                        cases h
              · simp only [if_neg hcolon] at h
                cases h
        · simp only [if_neg hq] at h
          cases h
    · -- parseElems (f+1)
      intro acc cs j rest h
      rw [parseElems.eq_def] at h
      simp only [] at h
      cases hpv : parseValue f cs with
      | none => rw [hpv] at h; cases h
      | some pv =>
        rw [hpv] at h
        obtain ⟨v, r1⟩ := pv
        simp only [] at h
        cases hsw1 : skipWs r1 with
        | nil => rw [hsw1] at h; cases h
        | cons sep r2 =>
          rw [hsw1] at h
          simp only [] at h
          have chunkToR1 : ∃ u, cs = u ++ r1 ∧ safeChunk u := ihv cs v r1 hpv
          by_cases hsep : sep = ','
          · subst hsep
            simp only [if_pos rfl] at h
            refine chunk_trans chunkToR1 (chunk_trans (skipWs_chunk r1) ?_)
            refine chunk_trans ?_ (chunk_trans (skipWs_chunk r2) ?_)
            · rw [hsw1]
              exact ⟨[','], rfl, safeChunk_single (by decide) (by decide) (by decide)⟩
            · exact ihe _ (skipWs r2) j rest h
          · simp only [if_neg hsep] at h
            by_cases hbr : sep = ']'
            · subst hbr
              simp only [if_pos rfl] at h
              obtain ⟨hj, hrest⟩ := Prod.mk.injEq .. ▸ Option.some.inj h
              subst hrest
              refine chunk_trans chunkToR1 (chunk_trans (skipWs_chunk r1) ?_)
              rw [hsw1]
              exact ⟨[']'], rfl, safeChunk_single (by decide) (by decide) (by decide)⟩
            · simp only [if_neg hbr] at h
              cases h



theorem tryParse_safe (cs : List Char) (j : Json) (h : tryParseJson cs = some j) :
    (dScan false cs).isSome = true := by
  unfold tryParseJson at h
  cases hp : parseValue (cs.length + 1) (skipWs cs) with
  | none => rw [hp] at h; cases h
  | some pr =>
    rw [hp] at h
    obtain ⟨j0, rest⟩ := pr
    simp only [] at h
    by_cases he : (skipWs rest).isEmpty
    · obtain ⟨u, hu, hs⟩ := (parse_safe (cs.length + 1)).1 (skipWs cs) j0 rest hp
      have hnil : rest.dropWhile isJsonWsChar = [] := List.isEmpty_iff.mp he
      have hrest_ws : ∀ c ∈ rest, isJsonWsChar c = true := by
        intro c hc
        have happ := List.takeWhile_append_dropWhile isJsonWsChar rest
        rw [hnil, List.append_nil] at happ
        exact List.mem_takeWhile_imp (happ ▸ hc)
      have hsafe_rest : safeChunk rest :=
        safeChunk_ws rest (fun c hc => jsonWs_isJsWs (hrest_ws c hc))
      have hcs : cs = cs.takeWhile isJsonWsChar ++ (u ++ rest) := by
        rw [← hu]
        exact (List.takeWhile_append_dropWhile isJsonWsChar cs).symm
      have hsafe : safeChunk cs := by
        rw [hcs]
        exact safeChunk_append
          (safeChunk_ws _ (fun c hc => jsonWs_isJsWs (List.mem_takeWhile_imp hc)))
          (safeChunk_append hs hsafe_rest)
      exact hsafe false
    · simp [he] at h

theorem splitOnChar_ne_nil (sep : Char) (cs : List Char) : splitOnChar sep cs ≠ [] := by
  cases cs with
  | nil => simp [splitOnChar]
  | cons c cs =>
    unfold splitOnChar
    by_cases h : c = sep
    · simp [h]
    · simp only [if_neg h]
      cases hs : splitOnChar sep cs with
      | nil => simp
      | cons l ls => simp

theorem dScan_lines : ∀ (cs : List Char) (b b2 : Bool) (l0 : List Char) (ls : List (List Char)),
    dScan b cs = some b2 → splitOnChar '\n' cs = l0 :: ls →
    (b = false → ¬ lineStartsD l0) ∧ ∀ l ∈ ls, ¬ lineStartsD l := by
  intro cs
  induction cs with
  | nil =>
    intro b b2 l0 ls h hsplit
    have hinj : ([] : List Char) = l0 ∧ ([] : List (List Char)) = ls :=
      List.cons.injEq .. ▸ hsplit
    obtain ⟨hl0, hls⟩ := hinj
    subst hl0
    subst hls
    refine ⟨fun _ => ?_, fun l hl => absurd hl (List.not_mem_nil l)⟩
    simp [lineStartsD]
  | cons c cs ih =>
    intro b b2 l0 ls h hsplit
    by_cases hc : c = '\n'
    · subst hc
      have hred : splitOnChar '\n' ('\n' :: cs) = [] :: splitOnChar '\n' cs := by
        simp [splitOnChar]
      rw [hred] at hsplit
      have hinj : ([] : List Char) = l0 ∧ splitOnChar '\n' cs = ls :=
        List.cons.injEq .. ▸ hsplit
      obtain ⟨hl0, hls⟩ := hinj
      subst hl0
      have hscan : dScan false cs = some b2 := by
        simpa [dScan] using h
      cases hsp : splitOnChar '\n' cs with
      | nil => exact absurd hsp (splitOnChar_ne_nil _ _)
      | cons l1 ls1 =>
        have ihres := ih false b2 l1 ls1 hscan hsp
        rw [hsp] at hls
        subst hls
        refine ⟨fun _ => by simp [lineStartsD], ?_⟩
        intro l hl
        rcases List.mem_cons.mp hl with rfl | hmem
        · exact ihres.1 rfl
        · exact ihres.2 l hmem
    · cases hsp : splitOnChar '\n' cs with
      | nil => exact absurd hsp (splitOnChar_ne_nil _ _)
      | cons l1 ls1 =>
        have hred : splitOnChar '\n' (c :: cs) = (c :: l1) :: ls1 := by
          unfold splitOnChar
          simp only [if_neg hc, hsp]
        rw [hred] at hsplit
        have hinj : c :: l1 = l0 ∧ ls1 = ls := List.cons.injEq .. ▸ hsplit
        obtain ⟨hl0, hls⟩ := hinj
        subst hl0
        subst hls
        by_cases hw : isJsWsChar c = true
        · have hscan : dScan b cs = some b2 := by
            simpa [dScan, hc, hw] using h
          have ihres := ih b b2 l1 ls1 hscan hsp
          refine ⟨?_, ihres.2⟩
          intro hb hld
          refine ihres.1 hb ?_
          unfold lineStartsD at hld ⊢
          rwa [List.dropWhile_cons, if_pos hw] at hld
        · by_cases hd : c = 'd' ∧ b = false
          · exfalso
            obtain ⟨hcd, hbf⟩ := hd
            subst hcd
            subst hbf
            rw [show dScan false ('d' :: cs) = none from rfl] at h
            cases h
          · have hscan : dScan true cs = some b2 := by
              simpa [dScan, hc, hw, hd] using h
            have ihres := ih true b2 l1 ls1 hscan hsp
            refine ⟨?_, ihres.2⟩
            intro hb hld
            unfold lineStartsD at hld
            rw [List.dropWhile_cons, if_neg (by simp [hw])] at hld
            exact hd ⟨Option.some.inj hld, hb⟩



theorem trimChars_prefix_dropWhile (l : List Char) :
    trimChars l <+: l.dropWhile isJsWsChar := by
  unfold trimChars
  rw [← List.reverse_suffix, List.reverse_reverse]
  exact List.dropWhile_suffix _

theorem startsData_lineStartsD (l : List Char)
    (h : "data:".data.isPrefixOf (trimChars l) = true) : lineStartsD l := by
  have hpre : "data:".data <+: trimChars l := List.isPrefixOf_iff_prefix.mp h
  obtain ⟨t, ht⟩ := hpre
  have hfull : trimChars l = 'd' :: ("ata:".data ++ t) := by
    rw [← ht]
    rfl
  obtain ⟨t2, ht2⟩ := trimChars_prefix_dropWhile l
  unfold lineStartsD
  rw [← ht2, hfull]
  rfl

theorem sse_empty_of_parse (cs : List Char) (j : Json) (h : tryParseJson cs = some j) :
    firstSseMessage cs = none := by
  have hsafe := tryParse_safe cs j h
  obtain ⟨b2, hb2⟩ := Option.isSome_iff_exists.mp hsafe
  have hlines : sseDataLines cs = [] := by
    unfold sseDataLines
    apply List.filter_eq_nil_iff.mpr
    intro l' hl'
    obtain ⟨l, hlmem, rfl⟩ := List.mem_map.mp hl'
    intro hpref
    have hld := startsData_lineStartsD l hpref
    cases hsp : splitOnChar '\n' cs with
    | nil => exact splitOnChar_ne_nil _ _ hsp
    | cons l0 ls =>
      have hres := dScan_lines cs false b2 l0 ls hb2 hsp
      rw [hsp] at hlmem
      rcases List.mem_cons.mp hlmem with rfl | hmem
      · exact hres.1 rfl hld
      · exact hres.2 l hmem hld
  unfold firstSseMessage
  rw [hlines]
  rfl

theorem extractText_eq (raw : String) :
    extractAxiosErrorMessageFromText raw = specExtractFromText raw := by
  unfold extractAxiosErrorMessageFromText specExtractFromText
  by_cases hempty : trimChars raw.data = []
  · simp [hempty]
  · simp only [if_neg hempty]
    cases hp : tryParseJson (trimChars raw.data) with
    | none =>
      cases hsse : firstSseMessage (trimChars raw.data) with
      | none => simp [hp, hsse]
      | some m => simp [hp, hsse]
    | some j =>
      have hsse := sse_empty_of_parse (trimChars raw.data) j hp
      simp [hp, hsse]

/-- Claim C3: the dispatcher's upstream-error message extraction behaves as
specified — object lookup `.error.message` else `.message`; for strings and
byte buffers, whole-text JSON parse first and, only when that fails, the
`data:` SSE-line scan; `none` when nothing structured is found.  The source
scans the SSE lines before the whole-text parse, but the orders coincide:
no text accepted by `JSON.parse` has a line starting with `data:`. -/
theorem extractAxiosErrorMessage_spec_order (d : RespData) :
    extractAxiosErrorMessage d = specExtractAxiosErrorMessage d := by
  cases d with
  | objectLike j => rfl
  | strData s => exact extractText_eq s
  | bufferData s => exact extractText_eq s
  | undef => rfl

end AGM
